import Mathlib

/-! Line buffer, request parsers, boundary scanner and upload streamer of
`a4/request.c`.

A shallow embedding of the C functions of `src/a4/request.c`.

* A byte is a natural number (the code only compares and copies bytes).
* `char buf[MAXLINE]` is a `List Byte`; a well-formed connection state has
  `buf.length = MAXLINE`.  `MAXLINE` and `MAX_QUERY_PARAMS` are declared in
  `request.h`, so they are parameters of the definitions that use them.
* C `int` values are `Int`.
* A `char *` that may be `NULL` is an `Option`; a C string is the list of its
  bytes before the terminating NUL.
-/

namespace Request

abbrev Byte := Nat

/-- Carriage return, `'\r'`. -/
def CR : Byte := 13

/-- Line feed, `'\n'`. -/
def LF : Byte := 10

/-- The byte `buf[i]`; an index outside the list reads as NUL, which matches
neither `'\r'` nor `'\n'`. -/
def byteAt (buf : List Byte) (i : Nat) : Byte := buf.getD i 0

/-- The `for` loop of `find_network_newline`: `index` is the loop counter and
`remaining` the number of iterations left, `inbuf - 1 - index`. -/
def find_network_newline_loop (buf : List Byte) : Nat → Nat → Int
  | 0, _ => -1
  | remaining + 1, index =>
    if byteAt buf index = CR ∧ byteAt buf (index + 1) = LF then
      (index : Int) + 2
    else
      find_network_newline_loop buf remaining (index + 1)

/-- `int find_network_newline(const char *buf, int inbuf)`: the loop runs for
`index = 0, ..., inbuf - 2`. -/
def find_network_newline (buf : List Byte) (inbuf : Int) : Int :=
  find_network_newline_loop buf (inbuf - 1).toNat 0

/-- `memset(mem + off, val, n)`. -/
def memset (mem : List Byte) (off : Nat) (val : Byte) (n : Nat) : List Byte :=
  mem.take off ++ List.replicate n val ++ mem.drop (off + n)

/-- `memmove(mem + dst, mem + src, n)`. -/
def memmove (mem : List Byte) (dst src n : Nat) : List Byte :=
  mem.take dst ++ (mem.drop src).take n ++ mem.drop (dst + n)

/-- One slot of `params`: `name` and `value` are `char *`. -/
structure Fdata where
  name : Option (List Byte)
  value : Option (List Byte)
deriving DecidableEq, Repr

/-- The request record `ReqData`. -/
structure ReqData where
  method : Option (List Byte)
  path : Option (List Byte)
  params : List Fdata
deriving DecidableEq, Repr

/-- The per-connection state `ClientState` (the socket is modelled apart). -/
structure ClientState where
  buf : List Byte
  num_bytes : Int
  reqData : Option ReqData
deriving DecidableEq, Repr

/-- `void remove_buffered_line(ClientState *clientState)`. -/
def remove_buffered_line (MAXLINE : Nat) (clientState : ClientState) : ClientState :=
  let startOfNextLine : Int :=
    if clientState.num_bytes = 0 then -1
    else find_network_newline clientState.buf clientState.num_bytes
  if startOfNextLine = -1 then
    { clientState with
      buf := memset clientState.buf 0 0 MAXLINE
      num_bytes := 0 }
  else
    let num_bytes := clientState.num_bytes - startOfNextLine
    let buf := memmove clientState.buf 0 startOfNextLine.toNat num_bytes.toNat
    { clientState with
      buf := memset buf num_bytes.toNat 0 ((MAXLINE : Int) - num_bytes).toNat
      num_bytes := num_bytes }

/-- The invariant of the data model: the array has `MAXLINE` bytes and
`0 ≤ num_bytes < MAXLINE`. -/
def WellFormed (MAXLINE : Nat) (c : ClientState) : Prop :=
  c.buf.length = MAXLINE ∧ 0 ≤ c.num_bytes ∧ c.num_bytes < MAXLINE

/-- There is a CR LF pair at index `k` among the first `n` bytes of `buf`. -/
def CrlfAt (buf : List Byte) (n : Int) (k : Nat) : Prop :=
  (k : Int) + 1 < n ∧ byteAt buf k = CR ∧ byteAt buf (k + 1) = LF

instance (buf : List Byte) (n : Int) (k : Nat) : Decidable (CrlfAt buf n k) := by
  unfold CrlfAt; infer_instance

/-! ## The socket

`read(2)` is the environment.  A socket is the list of what its next reads
will meet: a chunk of bytes sent by the peer (the empty chunk is the orderly
end of the stream) or a failure.  A read never delivers more than it was asked
for; what does not fit stays pending.  Once nothing is pending the peer has
closed and every read returns 0.  The socket also records the requests made to
it, as `(buffer offset, count)`. -/

inductive ReadEvent where
  | data (bytes : List Byte)
  | failure
deriving DecidableEq, Repr

structure Socket where
  pending : List ReadEvent
  requests : List (Nat × Nat)
deriving DecidableEq, Repr

/-- What one `read` call gives back: the bytes delivered (their number is the
return value) or the error return `-1`. -/
inductive ReadResult where
  | bytes (d : List Byte)
  | error
deriving DecidableEq, Repr

/-- `read(sock, buf + offset, count)`. -/
def sys_read (sock : Socket) (offset count : Nat) : ReadResult × Socket :=
  let requests := sock.requests ++ [(offset, count)]
  match sock.pending with
  | [] => (.bytes [], { pending := [], requests := requests })
  | .failure :: rest => (.error, { pending := rest, requests := requests })
  | .data d :: rest =>
    if d.length ≤ count then
      (.bytes d, { pending := rest, requests := requests })
    else
      (.bytes (d.take count),
        { pending := .data (d.drop count) :: rest, requests := requests })

/-- The bytes `d` stored at `mem + off` by a read. -/
def store (mem : List Byte) (off : Nat) (d : List Byte) : List Byte :=
  mem.take off ++ d ++ mem.drop (off + d.length)

/-- `int read_from_client(ClientState *client)`: the return value, the new
state and the socket afterwards.  After `remove_buffered_line` the field
`num_bytes` is never negative, and `MAXLINE - num_bytes - 1` is not negative
when `num_bytes < MAXLINE`, so its conversion to `size_t` is the identity. -/
def read_from_client (MAXLINE : Nat) (client : ClientState) (sock : Socket) :
    Int × ClientState × Socket :=
  let client := remove_buffered_line MAXLINE client
  let r := sys_read sock client.num_bytes.toNat
    ((MAXLINE : Int) - client.num_bytes - 1).toNat
  match r.1 with
  | .error => (-1, client, r.2)
  | .bytes d =>
    let bytesRead : Int := d.length
    (bytesRead,
      { client with
        buf := store client.buf client.num_bytes.toNat d
        num_bytes := client.num_bytes + bytesRead },
      r.2)

/-! ## C strings -/

/-- The C string that starts at `mem + off`: the bytes before the first NUL. -/
def cstr (mem : List Byte) (off : Nat) : List Byte :=
  (mem.drop off).takeWhile (fun b => b ≠ 0)

/-- `strchr(s, c)` for `c ≠ 0`, on the bytes of the string `s`: the offset of
the first `c`, or `NULL`. -/
def strchr : List Byte → Byte → Option Nat
  | [], _ => none
  | b :: rest, c => if b = c then some 0 else (strchr rest c).map (· + 1)

/-- `strspn(mem + off, delim)`. -/
def strspn (mem : List Byte) (off : Nat) (delim : List Byte) : Nat :=
  ((mem.drop off).takeWhile (fun b => b ≠ 0 ∧ b ∈ delim)).length

/-- `strcspn(mem + off, delim)`. -/
def strcspn (mem : List Byte) (off : Nat) (delim : List Byte) : Nat :=
  ((mem.drop off).takeWhile (fun b => b ≠ 0 ∧ b ∉ delim)).length

/-- `strtok`, with its hidden pointer made explicit: `s` is where the scan
starts (the first argument, or the saved pointer when that is `NULL`).
Gives the token (its offset, or `NULL`), the memory, in which the delimiter
that ended the token is overwritten by NUL, and the new saved pointer. -/
def strtok (mem : List Byte) (s : Nat) (delim : List Byte) :
    Option Nat × List Byte × Nat :=
  let s := s + strspn mem s delim
  if byteAt mem s = 0 then (none, mem, s)
  else
    let e := s + strcspn mem s delim
    if byteAt mem e = 0 then (some s, mem, e)
    else (some s, mem.set e 0, e + 1)

/-! ## The query parser -/

/-- The byte `'='`. -/
def EQUALS : Byte := 61

/-- The byte `'&'`. -/
def AMP : Byte := 38

/-- The slot value after `name = NULL; value = NULL`. -/
def Fdata.absent : Fdata := { name := none, value := none }

/-- The `while` loop of `parse_query`.  `current` is the rest of the string
at the pointer `current`; the first argument counts the iterations that
`index < MAX_QUERY_PARAMS` still allows, `MAX_QUERY_PARAMS - index`. -/
def parse_query_loop : Nat → List Byte → List Fdata → Nat → List Fdata × Nat
  | 0, _, params, index => (params, index)
  | slots + 1, current, params, index =>
    if current = [] then (params, index)
    else
      match strchr current EQUALS with
      | none => (params, index)
      | some key_length =>
        let key := current.take key_length
        let current := current.drop (key_length + 1)
        let value_length :=
          match strchr current AMP with
          | some i => i
          | none => current.length
        let value := current.take value_length
        let params := params.set index { name := some key, value := some value }
        let current := current.drop value_length
        let current := if current.head? = some AMP then current.tail else current
        parse_query_loop slots current params (index + 1)

/-- The closing `for` loop of `parse_query`: slots `i`, `i + 1`, ... are set
to `NULL`, one per remaining iteration. -/
def null_params_loop : Nat → Nat → List Fdata → List Fdata
  | 0, _, params => params
  | n + 1, i, params => null_params_loop n (i + 1) (params.set i Fdata.absent)

/-- `void parse_query(ReqData *req, const char *str)`; `str` is `none` for a
`NULL` pointer. -/
def parse_query (MAX_QUERY_PARAMS : Nat) (req : ReqData) (str : Option (List Byte)) :
    ReqData :=
  match str with
  | none => req
  | some s =>
    if s.length = 0 ∨ strchr s EQUALS = none then req
    else
      let r := parse_query_loop MAX_QUERY_PARAMS s req.params 0
      { req with params := null_params_loop (MAX_QUERY_PARAMS - r.2) r.2 r.1 }

end Request


namespace Request

/-! ## The request-line parser -/

/-- The byte `' '`. -/
def SPACE : Byte := 32

/-- The byte `'?'`. -/
def QUESTION : Byte := 63

/-- How a call of `parse_req_start_line` ends: it returns an `int`, or it
ends the process through `exit`. -/
inductive Outcome where
  | returned (value : Int)
  | exited (status : Int)
deriving DecidableEq, Repr

/-- The `for` loop that ends `parse_req_start_line`: a slot whose `name` is
`NULL` gets `name = NULL` and `value = NULL`; other slots are left alone. -/
def init_params_loop : Nat → Nat → List Fdata → List Fdata
  | 0, _, params => params
  | n + 1, i, params =>
    match params[i]? with
    | some slot =>
      if slot.name = none then init_params_loop n (i + 1) (params.set i Fdata.absent)
      else init_params_loop n (i + 1) params
    | none => init_params_loop n (i + 1) params

/-- `int parse_req_start_line(ClientState *client)`.  `alloc` is what
`malloc(sizeof(ReqData))` gives: `none` when it fails, else the record with
whatever the fresh memory holds.  `log_request` only prints. -/
def parse_req_start_line (MAX_QUERY_PARAMS : Nat) (client : ClientState)
    (alloc : Option ReqData) : Outcome × ClientState :=
  let crlf_exists := find_network_newline client.buf client.num_bytes
  if crlf_exists = -1 then (.returned 0, client)
  else
    match alloc with
    | none => (.exited 1, { client with reqData := none })
    | some fresh =>
      let t1 := strtok client.buf 0 [SPACE]
      match t1.1 with
      | none => (.exited 1, { client with buf := t1.2.1, reqData := none })
      | some method =>
        let req := { fresh with method := some (cstr t1.2.1 method) }
        let t2 := strtok t1.2.1 t1.2.2 [SPACE, QUESTION]
        match t2.1 with
        | none => (.exited 1, { client with buf := t2.2.1, reqData := none })
        | some path =>
          let req := { req with path := some (cstr t2.2.1 path) }
          let t3 := strtok t2.2.1 t2.2.2 [SPACE]
          let req :=
            match t3.1 with
            | some query_string =>
              parse_query MAX_QUERY_PARAMS req (some (cstr t3.2.1 query_string))
            | none => req
          let req := { req with
            params := init_params_loop MAX_QUERY_PARAMS 0 req.params }
          (.returned 1, { client with buf := t3.2.1, reqData := some req })

/-- The bytes of `GET /index.html?x=1&y=2 HTTP/1.1` followed by CR LF. -/
def exampleRequestLine : List Byte :=
  [71, 69, 84, 32, 47, 105, 110, 100, 101, 120, 46, 104, 116, 109, 108, 63,
    120, 61, 49, 38, 121, 61, 50, 32, 72, 84, 84, 80, 47, 49, 46, 49, 13, 10]

/-- The bytes of `GET /index.html HTTP/1.1` followed by CR LF: a request line
without query segment. -/
def plainRequestLine : List Byte :=
  [71, 69, 84, 32, 47, 105, 110, 100, 101, 120, 46, 104, 116, 109, 108, 32,
    72, 84, 84, 80, 47, 49, 46, 49, 13, 10]

/-! ## The boundary scanner -/

/-- The byte `'-'`. -/
def DASH : Byte := 45

/-- What `get_boundary` builds once the header line is found: `"--"` copied
by `strncpy`, the bytes after the header appended by `strncat` (at most
`where - len_header - 1` of them), and the string cut at
`where - len_header`.  This is the string built when
`where - len_header ≥ 2`, so that `strncpy` has room for `"--"` and its NUL.
The block is `where - len_header + 1` bytes long and the NUL that `strncat`
writes after its last byte lands one byte past it; the model keeps the
string and does not represent that byte. -/
def boundary_of (buf : List Byte) (len_header : Nat) (wh : Int) : List Byte :=
  ([DASH, DASH] ++ (cstr buf len_header).take (wh - len_header - 1).toNat).take
    (wh - len_header).toNat

/-- The `while (1)` loop of `get_boundary`, run for at most `fuel`
iterations: `none` when the fuel is spent, else the pointer returned (`NULL`
is `none`), the state and the socket.  The last component lists the complete
lines the loop met (each with its CR LF), in order; it does not influence
the run. -/
def get_boundary_loop (POST_BOUNDARY_HEADER : List Byte) (MAXLINE : Nat) :
    Nat → ClientState → Socket → List (List Byte) →
    Option (Option (List Byte) × ClientState × Socket × List (List Byte))
  | 0, _, _, _ => none
  | fuel + 1, client, sock, seen =>
    let len_header : Nat := POST_BOUNDARY_HEADER.length
    let wh := find_network_newline client.buf client.num_bytes
    if 0 < wh then
      let seen := seen ++ [client.buf.take wh.toNat]
      if wh < len_header ∨ client.buf.take len_header ≠ POST_BOUNDARY_HEADER then
        get_boundary_loop POST_BOUNDARY_HEADER MAXLINE fuel
          (remove_buffered_line MAXLINE client) sock seen
      else
        some (some (boundary_of client.buf len_header wh), client, sock, seen)
    else
      let r := read_from_client MAXLINE client sock
      if r.1 ≤ 0 then some (none, r.2.1, r.2.2, seen)
      else get_boundary_loop POST_BOUNDARY_HEADER MAXLINE fuel r.2.1 r.2.2 seen

/-- `char *get_boundary(ClientState *client)`, with `fuel` iterations. -/
def get_boundary (POST_BOUNDARY_HEADER : List Byte) (MAXLINE : Nat) (fuel : Nat)
    (client : ClientState) (sock : Socket) :
    Option (Option (List Byte) × ClientState × Socket × List (List Byte)) :=
  get_boundary_loop POST_BOUNDARY_HEADER MAXLINE fuel client sock []

end Request

namespace Request

/-! ## The wire format of a query segment -/

/-- The populated slot holding copies of a name and a value. -/
def Fdata.present (p : List Byte × List Byte) : Fdata :=
  { name := some p.1, value := some p.2 }

/-- The bytes `name=value` of one pair. -/
def pairBytes (p : List Byte × List Byte) : List Byte :=
  p.1 ++ EQUALS :: p.2

/-- The segment `name=value(&name=value)*` made of the given pairs. -/
def joinPairs : List (List Byte × List Byte) → List Byte
  | [] => []
  | [p] => pairBytes p
  | p :: q :: rest => pairBytes p ++ AMP :: joinPairs (q :: rest)

/-- The names hold neither `'='` nor `'&'` and the values no `'&'`. -/
def GoodPairs (pairs : List (List Byte × List Byte)) : Prop :=
  ∀ p ∈ pairs, EQUALS ∉ p.1 ∧ AMP ∉ p.1 ∧ AMP ∉ p.2

/-- The slots `index`, `index + 1`, ... filled with the given pairs, as the
loop of `parse_query` stores them. -/
def fillFrom : List Fdata → Nat → List (List Byte × List Byte) → List Fdata
  | params, _, [] => params
  | params, index, p :: ps => fillFrom (params.set index (Fdata.present p)) (index + 1) ps

end Request

namespace Request

/-! ## The filename scanner -/

/-- The byte `'"'`. -/
def QUOTE : Byte := 34

/-- `strrchr(s, c)` for `c ≠ 0`, on the bytes of the string `s`: the offset of
the last `c`, or `NULL`. -/
def strrchr : List Byte → Byte → Option Nat
  | [], _ => none
  | b :: rest, c =>
    match strrchr rest c with
    | some i => some (i + 1)
    | none => if b = c then some 0 else none

/-- How a call of `get_bitmap_filename` ends: it returns a pointer (`NULL`
is `none`), or it runs into undefined behaviour, using an offset outside the
array or a pointer computed from `NULL`. -/
inductive FilenameOutcome where
  | returned (filename : Option (List Byte))
  | undefined
deriving DecidableEq, Repr

/-- The `while (1)` loop of `get_bitmap_filename`, run for at most `fuel`
iterations: `none` when the fuel is spent, else whether the loop was left by
`break` (`true`, the boundary line met and removed) or by `return NULL`
(`false`), with the state and the socket. -/
def get_bitmap_filename_loop (boundary : List Byte) (MAXLINE : Nat) :
    Nat → ClientState → Socket → Option (Bool × ClientState × Socket)
  | 0, _, _ => none
  | fuel + 1, client, sock =>
    let len_boundary : Nat := boundary.length
    let wh := find_network_newline client.buf client.num_bytes
    if 0 < wh then
      if wh < (len_boundary : Int) + 2 ∨ client.buf.take len_boundary ≠ boundary then
        get_bitmap_filename_loop boundary MAXLINE fuel
          (remove_buffered_line MAXLINE client) sock
      else
        some (true, remove_buffered_line MAXLINE client, sock)
    else
      let r := read_from_client MAXLINE client sock
      if r.1 ≤ 0 then some (false, r.2.1, r.2.2)
      else get_bitmap_filename_loop boundary MAXLINE fuel r.2.1 r.2.2

/-- The code of `get_bitmap_filename` after its loop.  `where - 1` is used as
an offset with no test: when `where` is `-1` the store `buf[where-1] = '\0'`
falls outside the array.  `strrchr(buf, '=') + 2` is computed with no test:
when there is no `'='` it is computed from `NULL`.  A negative
`len_filename` makes `strncpy` copy an enormous count.  Otherwise the
filename is the `len_filename` bytes copied from `raw_filename`, and the
line is removed after its LF is put back. -/
def get_bitmap_filename_tail (MAXLINE : Nat) (client : ClientState) :
    FilenameOutcome × ClientState :=
  let wh := find_network_newline client.buf client.num_bytes
  if wh - 1 < 0 then (.undefined, client)
  else
    let buf := client.buf.set (wh - 1).toNat 0
    match strrchr (cstr buf 0) EQUALS with
    | none => (.undefined, { client with buf := buf })
    | some i =>
      let raw_filename : Nat := i + 2
      let len_filename : Int := wh - 3 - (raw_filename : Int)
      if len_filename < 0 then (.undefined, { client with buf := buf })
      else
        let filename := (cstr buf raw_filename).take len_filename.toNat
        let buf := buf.set (wh - 1).toNat LF
        (.returned (some filename),
          remove_buffered_line MAXLINE { client with buf := buf })

/-- `char *get_bitmap_filename(ClientState *client, const char *boundary)`,
with `fuel` iterations for its loop. -/
def get_bitmap_filename (boundary : List Byte) (MAXLINE : Nat) (fuel : Nat)
    (client : ClientState) (sock : Socket) :
    Option (FilenameOutcome × ClientState × Socket) :=
  match get_bitmap_filename_loop boundary MAXLINE fuel client sock with
  | none => none
  | some (false, c, s) => some (.returned none, c, s)
  | some (true, c, s) =>
    some ((get_bitmap_filename_tail MAXLINE c).1, (get_bitmap_filename_tail MAXLINE c).2, s)

/-! ## The upload streamer -/

/-- What a string search in the array gives: the offset of a match, no
match before the NUL that ends the string, or a scan that reaches the end of
the array with neither: the array holds no NUL there, and the search goes on
in whatever memory follows it. -/
inductive Search where
  | found (offset : Nat)
  | absent
  | overrun
deriving DecidableEq, Repr

/-- `strstr(mem, needle)` for a needle without NUL, scanning the array `mem`
from its start: the offset of the first occurrence, `NULL` when a NUL is met
first, and `overrun` when the end of the array is met first. -/
def strstr : List Byte → List Byte → Search
  | [], needle => if needle = [] then .found 0 else .overrun
  | b :: rest, needle =>
    if needle.isPrefixOf (b :: rest) then .found 0
    else if b = 0 then .absent
    else
      match strstr rest needle with
      | .found i => .found (i + 1)
      | .absent => .absent
      | .overrun => .overrun

/-- How a call of `save_file_upload` ends: it returns an `int`, or a string
search ran past the end of `client->buf` and its behaviour is undefined. -/
inductive UploadOutcome where
  | returned (value : Int)
  | undefined
deriving DecidableEq, Repr

/-- The sink behind `file_fd`: the bytes written so far, and for the coming
`write` calls whether each fails (`true`); calls beyond the list succeed.  A
`write` that succeeds takes all its bytes; one that fails takes none. -/
structure Sink where
  written : List Byte
  faults : List Bool
deriving DecidableEq, Repr

/-- `write(file_fd, data, n) == n`, and the sink afterwards. -/
def sys_write (sink : Sink) (data : List Byte) : Bool × Sink :=
  match sink.faults with
  | true :: rest => (false, { sink with faults := rest })
  | false :: rest => (true, { written := sink.written ++ data, faults := rest })
  | [] => (true, { written := sink.written ++ data, faults := [] })

/-- The string `end_boundary` built by
`snprintf(end_boundary, MAXLINE, "\r\n%s--\r\n", boundary)`: at most
`MAXLINE - 1` bytes are kept. -/
def end_boundary (MAXLINE : Nat) (boundary : List Byte) : List Byte :=
  ([CR, LF] ++ boundary ++ [DASH, DASH, CR, LF]).take (MAXLINE - 1)

/-- The `while (1)` loop of `save_file_upload`, run for at most `fuel`
iterations: `none` when the fuel is spent, else how the call ends, the
buffer, the socket and the sink.  `acc` is `file_data_buffer`; `realloc` is
taken to succeed. -/
def save_file_upload_loop (MAXLINE : Nat) (marker : List Byte) :
    Nat → List Byte → Socket → Sink → List Byte →
    Option (UploadOutcome × List Byte × Socket × Sink)
  | 0, _, _, _, _ => none
  | fuel + 1, buf, sock, sink, acc =>
    let r := sys_read sock 0 MAXLINE
    match r.1 with
    | .error => some (.returned (-1), buf, r.2, sink)
    | .bytes d =>
      if d.length = 0 then some (.returned (-1), buf, r.2, sink)
      else
        let buf := store buf 0 d
        match strstr buf marker with
        | .found write_size =>
          if 0 < acc.length then
            let w1 := sys_write sink acc
            if w1.1 = false then some (.returned (-1), buf, r.2, w1.2)
            else
              let w2 := sys_write w1.2 (buf.take write_size)
              if w2.1 = false then some (.returned (-1), buf, r.2, w2.2)
              else some (.returned 0, buf, r.2, w2.2)
          else
            let w := sys_write sink (buf.take write_size)
            if w.1 = false then some (.returned (-1), buf, r.2, w.2)
            else some (.returned 0, buf, r.2, w.2)
        | .absent => save_file_upload_loop MAXLINE marker fuel buf r.2 sink (acc ++ d)
        | .overrun => some (.undefined, buf, r.2, sink)

/-- `int save_file_upload(ClientState *client, const char *boundary, int file_fd)`,
with `fuel` iterations for its loop. -/
def save_file_upload (MAXLINE : Nat) (fuel : Nat) (client : ClientState)
    (boundary : List Byte) (sock : Socket) (sink : Sink) :
    Option (UploadOutcome × ClientState × Socket × Sink) :=
  match strstr client.buf [CR, LF, CR, LF] with
  | .overrun => some (.undefined, client, sock, sink)
  | .absent => some (.returned (-1), client, sock, sink)
  | .found i =>
    let start_of_data : Nat := i + 4
    let initial_data_length : Int := client.num_bytes - (start_of_data : Int)
    let w :=
      if 0 < initial_data_length then
        sys_write sink ((client.buf.drop start_of_data).take initial_data_length.toNat)
      else (true, sink)
    if w.1 = false then some (.returned (-1), client, sock, w.2)
    else
      match save_file_upload_loop MAXLINE (end_boundary MAXLINE boundary) fuel
          client.buf sock w.2 [] with
      | none => none
      | some r => some (r.1, { client with buf := r.2.1 }, r.2.2.1, r.2.2.2)

/-- The body bytes already in the buffer when `save_file_upload` starts:
those after the blank line found at offset `i`, up to `num_bytes`. -/
def residentBody (client : ClientState) (i : Nat) : List Byte :=
  if 0 < client.num_bytes - ((i + 4 : Nat) : Int) then
    (client.buf.drop (i + 4)).take (client.num_bytes - ((i + 4 : Nat) : Int)).toNat
  else []

/-! ## Lines -/

/-- The number of bytes the socket still has to deliver. -/
def pendingBytes : List ReadEvent → Nat
  | [] => 0
  | .data d :: rest => d.length + pendingBytes rest
  | .failure :: rest => pendingBytes rest

/-- The bytes of the given lines, one after the other. -/
def joinLines : List (List Byte) → List Byte
  | [] => []
  | l :: ls => l ++ joinLines ls

/-- The bytes `l` are one complete line: they end with CR LF and hold no
earlier CR LF. -/
def IsLine (l : List Byte) : Prop :=
  ∃ body, l = body ++ [CR, LF] ∧ ∀ k, ¬ CrlfAt (body ++ [CR]) ((body.length : Int) + 1) k

end Request

namespace Request

/-! ## `find_network_newline` -/

/-- What the scan loop computes from counter `idx` with `rem` iterations left:
the first pair at or after `idx`, or `-1` when the range holds none. -/
theorem find_network_newline_loop_spec (buf : List Byte) :
    ∀ (rem idx : Nat),
      (∃ k, idx ≤ k ∧ k < idx + rem ∧ byteAt buf k = CR ∧ byteAt buf (k + 1) = LF ∧
          (∀ j, idx ≤ j → j < k → ¬ (byteAt buf j = CR ∧ byteAt buf (j + 1) = LF)) ∧
          find_network_newline_loop buf rem idx = (k : Int) + 2) ∨
      ((∀ j, idx ≤ j → j < idx + rem →
          ¬ (byteAt buf j = CR ∧ byteAt buf (j + 1) = LF)) ∧
        find_network_newline_loop buf rem idx = -1) := by
  intro rem
  induction rem with
  | zero =>
    intro idx
    right
    refine ⟨fun j h1 h2 => by omega, rfl⟩
  | succ r ih =>
    intro idx
    by_cases h : byteAt buf idx = CR ∧ byteAt buf (idx + 1) = LF
    · left
      refine ⟨idx, le_refl _, by omega, h.1, h.2, fun j h1 h2 => by omega, ?_⟩
      simp only [find_network_newline_loop, if_pos h]
    · have hstep : find_network_newline_loop buf (r + 1) idx
          = find_network_newline_loop buf r (idx + 1) := by
        simp only [find_network_newline_loop, if_neg h]
      rcases ih (idx + 1) with ⟨k, h1, h2, h3, h4, h5, h6⟩ | ⟨h1, h2⟩
      · left
        refine ⟨k, by omega, by omega, h3, h4, ?_, by rw [hstep, h6]⟩
        intro j hj1 hj2
        rcases Nat.eq_or_lt_of_le hj1 with e | l
        · subst e; exact h
        · exact h5 j l hj2
      · right
        refine ⟨?_, by rw [hstep, h2]⟩
        intro j hj1 hj2
        rcases Nat.eq_or_lt_of_le hj1 with e | l
        · subst e; exact h
        · exact h1 j l (by omega)

/-- The result of `find_network_newline` is `-1` with no pair among the first
`n` bytes, or `k + 2` for the first pair `k`. -/
theorem find_network_newline_cases (buf : List Byte) (n : Int) :
    (∃ k, CrlfAt buf n k ∧ (∀ j, j < k → ¬ CrlfAt buf n j) ∧
        find_network_newline buf n = (k : Int) + 2) ∨
    ((∀ k, ¬ CrlfAt buf n k) ∧ find_network_newline buf n = -1) := by
  rcases find_network_newline_loop_spec buf (n - 1).toNat 0 with
    ⟨k, _, h2, h3, h4, h5, h6⟩ | ⟨h1, h2⟩
  · left
    refine ⟨k, ⟨by omega, h3, h4⟩, ?_, h6⟩
    intro j hj hc
    exact h5 j (Nat.zero_le _) hj ⟨hc.2.1, hc.2.2⟩
  · right
    refine ⟨?_, h2⟩
    intro k hc
    exact h1 k (Nat.zero_le _) (by have := hc.1; omega) ⟨hc.2.1, hc.2.2⟩

/-- With a first pair at `k`, the scan returns `k + 2`. -/
theorem find_network_newline_of_first (buf : List Byte) (n : Int) (k : Nat)
    (hk : CrlfAt buf n k) (hmin : ∀ j, j < k → ¬ CrlfAt buf n j) :
    find_network_newline buf n = (k : Int) + 2 := by
  rcases find_network_newline_cases buf n with ⟨k', h1, h2, h3⟩ | ⟨h1, _⟩
  · have hkk : k' = k := by
      rcases Nat.lt_trichotomy k' k with l | e | g
      · exact absurd h1 (hmin k' l)
      · exact e
      · exact absurd hk (h2 k g)
    rw [h3, hkk]
  · exact absurd hk (h1 k)

/-- The scan returns `-1` exactly when the first `n` bytes hold no pair. -/
theorem find_network_newline_eq_neg_one_iff (buf : List Byte) (n : Int) :
    find_network_newline buf n = -1 ↔ ∀ k, ¬ CrlfAt buf n k := by
  constructor
  · intro h
    rcases find_network_newline_cases buf n with ⟨k, _, _, h3⟩ | ⟨h1, _⟩
    · rw [h3] at h; omega
    · exact h1
  · intro h
    rcases find_network_newline_cases buf n with ⟨k, h1, _, _⟩ | ⟨_, h2⟩
    · exact absurd h1 (h k)
    · exact h2

/-- C1. `find_network_newline buf n` returns `k + 2` for the least index `k`
with `k + 1 < n`, `buf[k] = CR` and `buf[k+1] = LF`; it returns `-1` exactly
when there is no such `k`; in particular it returns `-1` when `n ≤ 1` and
when no byte before the last of the first `n` is a CR. -/
theorem find_network_newline_spec (buf : List Byte) (n : Int) :
    (∀ k, CrlfAt buf n k → (∀ j, j < k → ¬ CrlfAt buf n j) →
        find_network_newline buf n = (k : Int) + 2) ∧
    (find_network_newline buf n = -1 ↔ ∀ k, ¬ CrlfAt buf n k) ∧
    (n ≤ 1 → find_network_newline buf n = -1) ∧
    ((∀ i : Nat, (i : Int) + 1 < n → byteAt buf i ≠ CR) →
        find_network_newline buf n = -1) := by
  refine ⟨find_network_newline_of_first buf n,
    find_network_newline_eq_neg_one_iff buf n, ?_, ?_⟩
  · intro hn
    apply (find_network_newline_eq_neg_one_iff buf n).2
    intro k hc
    have := hc.1
    omega
  · intro hcr
    apply (find_network_newline_eq_neg_one_iff buf n).2
    intro k hc
    exact hcr k hc.1 hc.2.1

/-- C1 at `"a\r\nb\r\n"` with `n = 6`: the first pair is at index 1. -/
theorem find_network_newline_spec_witness :
    find_network_newline [97, 13, 10, 98, 13, 10] 6 = ((1 : Nat) : Int) + 2 :=
  (find_network_newline_spec [97, 13, 10, 98, 13, 10] 6).1 1 (by decide)
    (by intro j hj; interval_cases j; decide)

end Request

namespace Request

/-! ## `remove_buffered_line` -/

/-- The value of `remove_buffered_line` when the scan finds the first line
ending at `k`: the bytes `k .. num_bytes - 1` followed by zeros. -/
theorem remove_buffered_line_of_found (MAXLINE : Nat) (c : ClientState)
    (hwf : WellFormed MAXLINE c) (k : Nat)
    (hk : find_network_newline c.buf c.num_bytes = (k : Int)) :
    remove_buffered_line MAXLINE c =
      { c with
        buf := (c.buf.drop k).take (c.num_bytes.toNat - k) ++
          List.replicate (MAXLINE - (c.num_bytes.toNat - k)) 0
        num_bytes := c.num_bytes - k } := by
  obtain ⟨hlen, h0, hlt⟩ := hwf
  have hne : c.num_bytes ≠ 0 := by
    intro h
    have : find_network_newline c.buf c.num_bytes = -1 := by
      rw [h]; rfl
    omega
  have hkn : (k : Int) ≤ c.num_bytes := by
    rcases find_network_newline_cases c.buf c.num_bytes with ⟨j, h1, _, h3⟩ | ⟨_, h2⟩
    · have := h1.1; omega
    · omega
  have e1 : (c.num_bytes - (k : Int)).toNat = c.num_bytes.toNat - k := by omega
  have e2 : ((MAXLINE : Int) - (c.num_bytes - (k : Int))).toNat
      = MAXLINE - (c.num_bytes.toNat - k) := by omega
  have hk1 : (k : Int) ≠ -1 := by omega
  unfold remove_buffered_line
  simp only [if_neg hne, hk, if_neg hk1, Int.toNat_ofNat, e1, e2, memmove, memset]
  have hl : ((c.buf.drop k).take (c.num_bytes.toNat - k)).length
      = c.num_bytes.toNat - k := by
    rw [List.length_take, List.length_drop, hlen]; omega
  congr 1
  simp only [List.take_zero, List.nil_append, Nat.zero_add]
  rw [List.take_append_of_le_length (le_of_eq hl.symm),
    List.take_of_length_le (le_of_eq hl)]
  have hd : List.drop (c.num_bytes.toNat - k + (MAXLINE - (c.num_bytes.toNat - k)))
      (List.take (c.num_bytes.toNat - k) (List.drop k c.buf) ++
        List.drop (c.num_bytes.toNat - k) c.buf) = [] := by
    apply List.drop_eq_nil_of_le
    have hlen2 : (List.take (c.num_bytes.toNat - k) (List.drop k c.buf) ++
        List.drop (c.num_bytes.toNat - k) c.buf).length
        = (c.num_bytes.toNat - k) + (MAXLINE - (c.num_bytes.toNat - k)) := by
      simp only [List.length_append, hl, List.length_drop, hlen]
    exact le_of_eq hlen2
  rw [hd]
  exact List.append_nil _

/-- The value of `remove_buffered_line` when the buffer is empty or the scan
finds no line: every byte zero and `num_bytes = 0`. -/
theorem remove_buffered_line_of_not_found (MAXLINE : Nat) (c : ClientState)
    (hlen : c.buf.length = MAXLINE)
    (hk : c.num_bytes = 0 ∨ find_network_newline c.buf c.num_bytes = -1) :
    remove_buffered_line MAXLINE c =
      { c with buf := List.replicate MAXLINE 0, num_bytes := 0 } := by
  have hs : (if c.num_bytes = 0 then (-1 : Int)
      else find_network_newline c.buf c.num_bytes) = -1 := by
    rcases hk with h | h
    · simp [h]
    · simp [h]
  unfold remove_buffered_line
  simp only [hs, if_true, memset, List.take_zero, List.nil_append, Nat.zero_add]
  congr 1
  rw [List.drop_eq_nil_of_le (by omega), List.append_nil]

/-- C2. In a state with `0 ≤ num_bytes < MAXLINE` whose first line ends just
before index `k = j + 2` (the first CR LF is at `j`), `remove_buffered_line`
sets `num_bytes` to `num_bytes - k`, makes the first `num_bytes - k` bytes the
old bytes `k .. num_bytes - 1` in order, and makes every byte from index
`num_bytes - k` up to `MAXLINE - 1` zero; the array keeps its size. -/
theorem remove_buffered_line_shifts (MAXLINE : Nat) (c : ClientState)
    (hwf : WellFormed MAXLINE c) (j : Nat)
    (hj : CrlfAt c.buf c.num_bytes j)
    (hmin : ∀ i, i < j → ¬ CrlfAt c.buf c.num_bytes i) :
    (remove_buffered_line MAXLINE c).num_bytes = c.num_bytes - ((j : Int) + 2) ∧
    (∀ i : Nat, (i : Int) < c.num_bytes - ((j : Int) + 2) →
      byteAt (remove_buffered_line MAXLINE c).buf i = byteAt c.buf (j + 2 + i)) ∧
    (∀ i : Nat, c.num_bytes - ((j : Int) + 2) ≤ (i : Int) → i < MAXLINE →
      byteAt (remove_buffered_line MAXLINE c).buf i = 0) ∧
    (remove_buffered_line MAXLINE c).buf.length = MAXLINE ∧
    (remove_buffered_line MAXLINE c).reqData = c.reqData := by
  have hfind := find_network_newline_of_first c.buf c.num_bytes j hj hmin
  have hfind' : find_network_newline c.buf c.num_bytes = ((j + 2 : Nat) : Int) := by
    rw [hfind]; push_cast; ring
  rw [remove_buffered_line_of_found MAXLINE c hwf (j + 2) hfind']
  obtain ⟨hlen, h0, hlt⟩ := hwf
  have hjn := hj.1
  have hl : ((c.buf.drop (j + 2)).take (c.num_bytes.toNat - (j + 2))).length
      = c.num_bytes.toNat - (j + 2) := by
    rw [List.length_take, List.length_drop, hlen]; omega
  refine ⟨by push_cast; ring, ?_, ?_, ?_, rfl⟩
  · intro i hi
    simp only [byteAt]
    rw [List.getD_append _ _ _ _ (by rw [hl]; omega)]
    simp only [List.getD_eq_getElem?_getD, List.getElem?_take, List.getElem?_drop]
    rw [if_pos (by omega)]
  · intro i hi1 hi2
    simp only [byteAt]
    rw [List.getD_append_right _ _ _ _ (by rw [hl]; omega), hl]
    simp only [List.getD_eq_getElem?_getD, List.getElem?_replicate]
    split <;> rfl
  · simp only [List.length_append, hl, List.length_replicate]
    omega

/-- C2 at `"hi\r\nyo"` in an array of 8 bytes: `"yo"` moves to the front. -/
theorem remove_buffered_line_shifts_witness :
    (remove_buffered_line 8 ⟨[104, 105, 13, 10, 121, 111, 0, 0], 6, none⟩).num_bytes
      = 6 - (((2 : Nat) : Int) + 2) ∧
    (∀ i : Nat, (i : Int) < 6 - (((2 : Nat) : Int) + 2) →
      byteAt (remove_buffered_line 8 ⟨[104, 105, 13, 10, 121, 111, 0, 0], 6, none⟩).buf i
        = byteAt [104, 105, 13, 10, 121, 111, 0, 0] (2 + 2 + i)) ∧
    (∀ i : Nat, 6 - (((2 : Nat) : Int) + 2) ≤ (i : Int) → i < 8 →
      byteAt (remove_buffered_line 8 ⟨[104, 105, 13, 10, 121, 111, 0, 0], 6, none⟩).buf i
        = 0) ∧
    (remove_buffered_line 8 ⟨[104, 105, 13, 10, 121, 111, 0, 0], 6, none⟩).buf.length = 8 ∧
    (remove_buffered_line 8 ⟨[104, 105, 13, 10, 121, 111, 0, 0], 6, none⟩).reqData = none :=
  remove_buffered_line_shifts 8 ⟨[104, 105, 13, 10, 121, 111, 0, 0], 6, none⟩
    ⟨by decide, by decide, by decide⟩ 2 (by decide)
    (by intro i hi; interval_cases i <;> decide)

end Request

namespace Request

/-! ## A partial line is cleared -/

/-- C5, as stated, fails: in an array of 8 bytes holding the partial line
`"ab"` (`num_bytes = 2 > 0`, no CR LF), `remove_buffered_line` does not leave
the bytes and the length unchanged. -/
theorem remove_buffered_line_partial_counterexample :
    (0 : Int) < (⟨[97, 98, 0, 0, 0, 0, 0, 0], 2, none⟩ : ClientState).num_bytes ∧
    find_network_newline [97, 98, 0, 0, 0, 0, 0, 0] 2 = -1 ∧
    (remove_buffered_line 8 ⟨[97, 98, 0, 0, 0, 0, 0, 0], 2, none⟩).num_bytes ≠ 2 ∧
    (remove_buffered_line 8 ⟨[97, 98, 0, 0, 0, 0, 0, 0], 2, none⟩).buf
      ≠ [97, 98, 0, 0, 0, 0, 0, 0] := by
  decide

/-- C5, amended. Whenever the first `num_bytes` bytes hold no CR LF, be the
buffer empty or a partial line, `remove_buffered_line` clears the buffer:
`num_bytes` becomes 0 and every one of the `MAXLINE` bytes becomes zero. -/
theorem remove_buffered_line_clears (MAXLINE : Nat) (c : ClientState)
    (hlen : c.buf.length = MAXLINE)
    (hno : ∀ k, ¬ CrlfAt c.buf c.num_bytes k) :
    (remove_buffered_line MAXLINE c).num_bytes = 0 ∧
    (remove_buffered_line MAXLINE c).buf = List.replicate MAXLINE 0 ∧
    (remove_buffered_line MAXLINE c).reqData = c.reqData := by
  rw [remove_buffered_line_of_not_found MAXLINE c hlen
    (Or.inr ((find_network_newline_eq_neg_one_iff c.buf c.num_bytes).2 hno))]
  exact ⟨rfl, rfl, rfl⟩

/-- C5, amended, at the partial line `"ab"` in an array of 8 bytes. -/
theorem remove_buffered_line_clears_witness :
    (remove_buffered_line 8 ⟨[97, 98, 0, 0, 0, 0, 0, 0], 2, none⟩).num_bytes = 0 ∧
    (remove_buffered_line 8 ⟨[97, 98, 0, 0, 0, 0, 0, 0], 2, none⟩).buf
      = List.replicate 8 0 ∧
    (remove_buffered_line 8 ⟨[97, 98, 0, 0, 0, 0, 0, 0], 2, none⟩).reqData = none :=
  remove_buffered_line_clears 8 ⟨[97, 98, 0, 0, 0, 0, 0, 0], 2, none⟩ (by decide)
    ((find_network_newline_eq_neg_one_iff _ _).1 (by decide))

end Request

namespace Request

/-! ## `read_from_client` -/

/-- `remove_buffered_line` keeps a well-formed state well-formed and never
lengthens the buffered data. -/
theorem remove_buffered_line_wellFormed (MAXLINE : Nat) (c : ClientState)
    (hwf : WellFormed MAXLINE c) :
    WellFormed MAXLINE (remove_buffered_line MAXLINE c) ∧
    (remove_buffered_line MAXLINE c).num_bytes ≤ c.num_bytes := by
  rcases find_network_newline_cases c.buf c.num_bytes with ⟨k, h1, _, h3⟩ | ⟨_, h2⟩
  · have h3' : find_network_newline c.buf c.num_bytes = ((k + 2 : Nat) : Int) := by
      rw [h3]; push_cast; ring
    rw [remove_buffered_line_of_found MAXLINE c hwf (k + 2) h3']
    obtain ⟨hlen, h0, hlt⟩ := hwf
    have hk := h1.1
    refine ⟨⟨?_, ?_, ?_⟩, ?_⟩
    · simp only [List.length_append, List.length_take, List.length_drop,
        List.length_replicate, hlen]
      omega
    · show 0 ≤ c.num_bytes - ((k + 2 : Nat) : Int)
      omega
    · show c.num_bytes - ((k + 2 : Nat) : Int) < MAXLINE
      omega
    · show c.num_bytes - ((k + 2 : Nat) : Int) ≤ c.num_bytes
      omega
  · rw [remove_buffered_line_of_not_found MAXLINE c hwf.1 (Or.inr h2)]
    obtain ⟨hlen, h0, hlt⟩ := hwf
    refine ⟨⟨by simp, le_refl _, ?_⟩, h0⟩
    show (0 : Int) < MAXLINE
    omega

/-- `remove_buffered_line` does not touch the request record. -/
theorem remove_buffered_line_reqData (MAXLINE : Nat) (c : ClientState) :
    (remove_buffered_line MAXLINE c).reqData = c.reqData := by
  unfold remove_buffered_line
  dsimp only
  by_cases h : (if c.num_bytes = 0 then (-1 : Int)
      else find_network_newline c.buf c.num_bytes) = -1
  · rw [if_pos h]
  · rw [if_neg h]

/-- A read never delivers more bytes than it was asked for. -/
theorem sys_read_length_le (s : Socket) (off count : Nat) (d : List Byte)
    (h : (sys_read s off count).1 = .bytes d) : d.length ≤ count := by
  unfold sys_read at h
  rcases hs : s.pending with _ | ⟨e, rest⟩
  · simp only [hs] at h
    injection h with h
    subst h
    exact Nat.zero_le _
  · cases e with
    | failure => simp [hs] at h
    | data b =>
      simp only [hs] at h
      by_cases hb : b.length ≤ count
      · rw [if_pos hb] at h
        injection h with h
        subst h
        exact hb
      · rw [if_neg hb] at h
        injection h with h
        subst h
        rw [List.length_take]
        exact Nat.min_le_left _ _

/-- Each read is recorded once, after the earlier ones. -/
theorem sys_read_requests (s : Socket) (off count : Nat) :
    (sys_read s off count).2.requests = s.requests ++ [(off, count)] := by
  unfold sys_read
  rcases hs : s.pending with _ | ⟨e, rest⟩
  · rfl
  · cases e with
    | failure => rfl
    | data b =>
      by_cases hb : b.length ≤ count
      · simp only [if_pos hb]
      · simp only [if_neg hb]

/-- `read_from_client` in terms of its two steps. -/
theorem read_from_client_eq (MAXLINE : Nat) (c : ClientState) (s : Socket) :
    read_from_client MAXLINE c s =
      match (sys_read s (remove_buffered_line MAXLINE c).num_bytes.toNat
          ((MAXLINE : Int) - (remove_buffered_line MAXLINE c).num_bytes - 1).toNat).1 with
      | .error =>
        (-1, remove_buffered_line MAXLINE c,
          (sys_read s (remove_buffered_line MAXLINE c).num_bytes.toNat
            ((MAXLINE : Int) - (remove_buffered_line MAXLINE c).num_bytes - 1).toNat).2)
      | .bytes d =>
        ((d.length : Int),
          { remove_buffered_line MAXLINE c with
            buf := store (remove_buffered_line MAXLINE c).buf
              (remove_buffered_line MAXLINE c).num_bytes.toNat d
            num_bytes := (remove_buffered_line MAXLINE c).num_bytes + (d.length : Int) },
          (sys_read s (remove_buffered_line MAXLINE c).num_bytes.toNat
            ((MAXLINE : Int) - (remove_buffered_line MAXLINE c).num_bytes - 1).toNat).2) :=
  rfl

/-- The bytes before `off` are not touched by `store`, the stored bytes
follow them, and the array keeps its size when they fit. -/
theorem store_spec (mem : List Byte) (off : Nat) (d : List Byte)
    (h : off + d.length ≤ mem.length) :
    (store mem off d).take off = mem.take off ∧
    ((store mem off d).drop off).take d.length = d ∧
    (store mem off d).length = mem.length := by
  have hl : (mem.take off).length = off := by
    rw [List.length_take]; omega
  refine ⟨?_, ?_, ?_⟩
  · unfold store
    rw [List.append_assoc, List.take_append_of_le_length (le_of_eq hl.symm),
      List.take_of_length_le (le_of_eq hl)]
  · unfold store
    rw [List.append_assoc, List.drop_append_of_le_length (le_of_eq hl.symm),
      List.drop_of_length_le (le_of_eq hl), List.nil_append,
      List.take_append_of_le_length (le_refl _), List.take_of_length_le (le_refl _)]
  · unfold store
    simp only [List.length_append, hl, List.length_drop]
    omega

/-- C6. In a state with `0 ≤ num_bytes < MAXLINE`, `read_from_client` makes
exactly one read, at buffer offset `n'` and for exactly `MAXLINE - n' - 1`
bytes, `n'` being `num_bytes` after its `remove_buffered_line` step.  When
the read delivers the bytes `d` it returns their number, the first `n'` bytes
of the buffer are those left by `remove_buffered_line`, the bytes `d` follow
them, and `num_bytes` becomes `n' + |d|`; when the read fails it returns `-1`
and the state is the one left by `remove_buffered_line`. -/
theorem read_from_client_spec (MAXLINE : Nat) (c : ClientState) (s : Socket)
    (hwf : WellFormed MAXLINE c) :
    (read_from_client MAXLINE c s).2.2.requests = s.requests ++
      [((remove_buffered_line MAXLINE c).num_bytes.toNat,
        ((MAXLINE : Int) - (remove_buffered_line MAXLINE c).num_bytes - 1).toNat)] ∧
    ((remove_buffered_line MAXLINE c).num_bytes.toNat : Int)
      = (remove_buffered_line MAXLINE c).num_bytes ∧
    ((((MAXLINE : Int) - (remove_buffered_line MAXLINE c).num_bytes - 1).toNat : Nat) : Int)
      = (MAXLINE : Int) - (remove_buffered_line MAXLINE c).num_bytes - 1 ∧
    (read_from_client MAXLINE c s).2.2 =
      (sys_read s (remove_buffered_line MAXLINE c).num_bytes.toNat
        ((MAXLINE : Int) - (remove_buffered_line MAXLINE c).num_bytes - 1).toNat).2 ∧
    (∀ d, (sys_read s (remove_buffered_line MAXLINE c).num_bytes.toNat
        ((MAXLINE : Int) - (remove_buffered_line MAXLINE c).num_bytes - 1).toNat).1
          = .bytes d →
      (read_from_client MAXLINE c s).1 = (d.length : Int) ∧
      (read_from_client MAXLINE c s).2.1.num_bytes
        = (remove_buffered_line MAXLINE c).num_bytes + (d.length : Int) ∧
      (read_from_client MAXLINE c s).2.1.buf.take
          (remove_buffered_line MAXLINE c).num_bytes.toNat
        = (remove_buffered_line MAXLINE c).buf.take
          (remove_buffered_line MAXLINE c).num_bytes.toNat ∧
      ((read_from_client MAXLINE c s).2.1.buf.drop
          (remove_buffered_line MAXLINE c).num_bytes.toNat).take d.length = d ∧
      (read_from_client MAXLINE c s).2.1.buf.length = MAXLINE ∧
      (read_from_client MAXLINE c s).2.1.reqData = c.reqData) ∧
    ((sys_read s (remove_buffered_line MAXLINE c).num_bytes.toNat
        ((MAXLINE : Int) - (remove_buffered_line MAXLINE c).num_bytes - 1).toNat).1
          = .error →
      (read_from_client MAXLINE c s).1 = -1 ∧
      (read_from_client MAXLINE c s).2.1 = remove_buffered_line MAXLINE c) := by
  obtain ⟨⟨hlen, h0, hlt⟩, _⟩ := remove_buffered_line_wellFormed MAXLINE c hwf
  have hreq := remove_buffered_line_reqData MAXLINE c
  generalize hc1 : remove_buffered_line MAXLINE c = c1 at hlen h0 hlt hreq
  have heq := read_from_client_eq MAXLINE c s
  rw [hc1] at heq
  generalize hr : sys_read s c1.num_bytes.toNat
    ((MAXLINE : Int) - c1.num_bytes - 1).toNat = r at heq
  have hlog := sys_read_requests s c1.num_bytes.toNat
    ((MAXLINE : Int) - c1.num_bytes - 1).toNat
  have hle := sys_read_length_le s c1.num_bytes.toNat
    ((MAXLINE : Int) - c1.num_bytes - 1).toNat
  rw [hr] at hlog hle
  have hsock : (read_from_client MAXLINE c s).2.2 = r.2 := by
    rw [heq]; split <;> rfl
  refine ⟨by rw [hsock, hlog], by omega, by omega, hsock, ?_, ?_⟩
  · intro d hd
    have hdle := hle d hd
    have hfit : c1.num_bytes.toNat + d.length ≤ c1.buf.length := by omega
    obtain ⟨s1, s2, s3⟩ := store_spec c1.buf c1.num_bytes.toNat d hfit
    rw [heq, hd]
    exact ⟨rfl, rfl, s1, s2, by rw [← hlen]; exact s3, hreq⟩
  · intro he
    rw [heq, he]
    exact ⟨rfl, rfl⟩

/-- C6 at a line followed by a partial line, in an array of 8 bytes. -/
theorem read_from_client_spec_witness :
    (read_from_client 8 ⟨[104, 13, 10, 97, 0, 0, 0, 0], 4, none⟩
        ⟨[.data [98, 99]], []⟩).2.2.requests = [(1, 6)] :=
  (read_from_client_spec 8 ⟨[104, 13, 10, 97, 0, 0, 0, 0], 4, none⟩
    ⟨[.data [98, 99]], []⟩ ⟨by decide, by decide, by decide⟩).1

end Request

namespace Request

/-! ## Bytes lost by `read_from_client` -/

/-- The read made on a socket whose next chunk fits in the room asked for. -/
theorem sys_read_data (d : List Byte) (rest : List ReadEvent) (log : List (Nat × Nat))
    (off count : Nat) (h : d.length ≤ count) :
    sys_read ⟨.data d :: rest, log⟩ off count
      = (.bytes d, ⟨rest, log ++ [(off, count)]⟩) := by
  simp only [sys_read, if_pos h]

/-- `read_from_client` on a buffer without a complete line: whatever was
buffered is cleared, and the buffer then holds the chunk read alone. -/
theorem read_from_client_of_no_line (MAXLINE : Nat) (c : ClientState)
    (d : List Byte) (rest : List ReadEvent) (log : List (Nat × Nat))
    (hlen : c.buf.length = MAXLINE)
    (hno : c.num_bytes = 0 ∨ find_network_newline c.buf c.num_bytes = -1)
    (hd : d.length < MAXLINE) :
    read_from_client MAXLINE c ⟨.data d :: rest, log⟩ =
      ((d.length : Int),
        { c with buf := d ++ List.replicate (MAXLINE - d.length) 0
                 num_bytes := (d.length : Int) },
        ⟨rest, log ++ [(0, MAXLINE - 1)]⟩) := by
  rw [read_from_client_eq, remove_buffered_line_of_not_found MAXLINE c hlen hno]
  have e1 : ((MAXLINE : Int) - 0 - 1).toNat = MAXLINE - 1 := by omega
  simp only [Int.toNat_zero, e1]
  rw [sys_read_data d rest log 0 (MAXLINE - 1) (by omega)]
  simp only [store, List.take_zero, List.nil_append, Nat.zero_add, List.drop_replicate,
    Int.zero_add]

/-- C4 fails on the code. For every `MAXLINE ≥ 5`: the buffer holds
`"x\r\na"` (`L = "x"`, `R = "a"`) and the next read delivers `C = "b"`.
After `remove_buffered_line` and `read_from_client` the buffer holds `"b"`
alone with `num_bytes = 1`, not `R ++ C = "ab"` with `num_bytes = 2`: the
byte of `R` is lost. -/
theorem consume_then_refill_loses_bytes (MAXLINE : Nat) (hM : 5 ≤ MAXLINE) :
    read_from_client MAXLINE
      (remove_buffered_line MAXLINE
        ⟨[120, 13, 10, 97] ++ List.replicate (MAXLINE - 4) 0, 4, none⟩)
      ⟨[.data [98]], []⟩
    = (1, ⟨[98] ++ List.replicate (MAXLINE - 1) 0, 1, none⟩,
        ⟨[], [(0, MAXLINE - 1)]⟩) := by
  have hwf : WellFormed MAXLINE
      ⟨[120, 13, 10, 97] ++ List.replicate (MAXLINE - 4) 0, 4, none⟩ := by
    refine ⟨?_, ?_, ?_⟩
    · simp only [List.length_append, List.length_cons, List.length_nil,
        List.length_replicate]
      omega
    · show (0 : Int) ≤ 4
      omega
    · show (4 : Int) < MAXLINE
      omega
  have h1 : remove_buffered_line MAXLINE
      ⟨[120, 13, 10, 97] ++ List.replicate (MAXLINE - 4) 0, 4, none⟩
      = ⟨[97] ++ List.replicate (MAXLINE - 1) 0, 1, none⟩ := by
    rw [remove_buffered_line_of_found MAXLINE _ hwf 3 rfl]
    rfl
  have hlen1 : ([97] ++ List.replicate (MAXLINE - 1) 0).length = MAXLINE := by
    simp only [List.length_append, List.length_cons, List.length_nil,
      List.length_replicate]
    omega
  rw [h1, read_from_client_of_no_line MAXLINE
    ⟨[97] ++ List.replicate (MAXLINE - 1) 0, 1, none⟩ [98] [] [] hlen1 (Or.inr rfl)
    (by simp only [List.length_cons, List.length_nil]; omega)]
  rfl

/-- C4's failure in an array of 8 bytes. -/
theorem consume_then_refill_loses_bytes_witness :
    read_from_client 8
      (remove_buffered_line 8 ⟨[120, 13, 10, 97, 0, 0, 0, 0], 4, none⟩)
      ⟨[.data [98]], []⟩
    = (1, ⟨[98, 0, 0, 0, 0, 0, 0, 0], 1, none⟩, ⟨[], [(0, 7)]⟩) :=
  consume_then_refill_loses_bytes 8 (by decide)

end Request

namespace Request

/-! ## The scan loop of `get_boundary` -/

/-- One iteration of the loop when no complete line is buffered: it reads,
and goes on only when the read delivered bytes. -/
theorem get_boundary_loop_read (H : List Byte) (MAXLINE fuel : Nat) (c : ClientState)
    (s : Socket) (seen : List (List Byte)) (ret : Int) (c1 : ClientState) (s1 : Socket)
    (h : ¬ 0 < find_network_newline c.buf c.num_bytes)
    (hread : read_from_client MAXLINE c s = (ret, c1, s1)) :
    get_boundary_loop H MAXLINE (fuel + 1) c s seen =
      if ret ≤ 0 then some (none, c1, s1, seen)
      else get_boundary_loop H MAXLINE fuel c1 s1 seen := by
  simp only [get_boundary_loop, if_neg h, hread]

/-- One iteration of the loop on a complete line that is not the header
line: the line is removed. -/
theorem get_boundary_loop_skip (H : List Byte) (MAXLINE fuel : Nat) (c : ClientState)
    (s : Socket) (seen : List (List Byte)) (wh : Nat)
    (hw : find_network_newline c.buf c.num_bytes = (wh : Int)) (h : 0 < wh)
    (hskip : wh < H.length ∨ c.buf.take H.length ≠ H) :
    get_boundary_loop H MAXLINE (fuel + 1) c s seen =
      get_boundary_loop H MAXLINE fuel (remove_buffered_line MAXLINE c) s
        (seen ++ [c.buf.take wh]) := by
  have h1 : (0 : Int) < (wh : Int) := by exact_mod_cast h
  have h2 : (wh : Int) < (H.length : Int) ∨ c.buf.take H.length ≠ H := by
    rcases hskip with l | r
    · left; exact_mod_cast l
    · right; exact r
  simp only [get_boundary_loop, hw, if_pos h1, if_pos h2, Int.toNat_ofNat]

/-- `read_from_client` on a buffer without a complete line when the peer has
closed: it returns 0 on a cleared buffer. -/
theorem read_from_client_of_closed (MAXLINE : Nat) (c : ClientState)
    (log : List (Nat × Nat)) (hlen : c.buf.length = MAXLINE)
    (hno : c.num_bytes = 0 ∨ find_network_newline c.buf c.num_bytes = -1) :
    read_from_client MAXLINE c ⟨[], log⟩ =
      (0, { c with buf := List.replicate MAXLINE 0, num_bytes := 0 },
        ⟨[], log ++ [(0, MAXLINE - 1)]⟩) := by
  rw [read_from_client_eq, remove_buffered_line_of_not_found MAXLINE c hlen hno]
  have e1 : ((MAXLINE : Int) - 0 - 1).toNat = MAXLINE - 1 := by omega
  simp only [e1]
  simp only [sys_read, store, Int.toNat_zero, List.take_zero, List.nil_append,
    List.length_nil, Nat.add_zero, List.drop_zero, Nat.cast_zero, Int.add_zero]

/-- C3 fails on the code. For every `MAXLINE ≥ 6` and every header constant
longer than 4 bytes, take the stream `"ab\r\n"` and an empty buffer.
Delivered by one read, the loop of `get_boundary` meets the line `"ab\r\n"`.
Delivered as the chunks `"a"` and `"b\r\n"`, it meets the line `"b\r\n"`:
the second `read_from_client` clears the buffered `"a"` before it reads. -/
theorem get_boundary_chunking_diverges (H : List Byte) (MAXLINE : Nat)
    (hM : 6 ≤ MAXLINE) (hH : 4 < H.length) :
    get_boundary H MAXLINE 3 ⟨List.replicate MAXLINE 0, 0, none⟩
        ⟨[.data [97, 98, 13, 10]], []⟩
      = some (none, ⟨List.replicate MAXLINE 0, 0, none⟩,
          ⟨[], [(0, MAXLINE - 1), (0, MAXLINE - 1)]⟩, [[97, 98, 13, 10]]) ∧
    get_boundary H MAXLINE 4 ⟨List.replicate MAXLINE 0, 0, none⟩
        ⟨[.data [97], .data [98, 13, 10]], []⟩
      = some (none, ⟨List.replicate MAXLINE 0, 0, none⟩,
          ⟨[], [(0, MAXLINE - 1), (0, MAXLINE - 1), (0, MAXLINE - 1)]⟩,
          [[98, 13, 10]]) := by
  have hlen0 : (List.replicate MAXLINE (0 : Byte)).length = MAXLINE :=
    List.length_replicate _ _
  have hneg : ¬ (0 : Int) < -1 := by omega
  have hw4 : find_network_newline ([97, 98, 13, 10] ++ List.replicate (MAXLINE - 4) 0) 4
      = ((4 : Nat) : Int) := rfl
  have hw3 : find_network_newline ([98, 13, 10] ++ List.replicate (MAXLINE - 3) 0) 3
      = ((3 : Nat) : Int) := rfl
  have hpos4 : ¬ (4 : Int) ≤ 0 := by omega
  have hpos3 : ¬ (3 : Int) ≤ 0 := by omega
  have hpos1 : ¬ (1 : Int) ≤ 0 := by omega
  -- the last iteration of both runs: empty buffer, closed peer
  have hlast : ∀ (log : List (Nat × Nat)) (seen : List (List Byte)) (fuel : Nat),
      get_boundary_loop H MAXLINE (fuel + 1) ⟨List.replicate MAXLINE 0, 0, none⟩
        ⟨[], log⟩ seen
      = some (none, ⟨List.replicate MAXLINE 0, 0, none⟩,
          ⟨[], log ++ [(0, MAXLINE - 1)]⟩, seen) := by
    intro log seen fuel
    rw [get_boundary_loop_read H MAXLINE fuel (⟨List.replicate MAXLINE 0, 0, none⟩ : ClientState) _ _ _ _ _ hneg
      (read_from_client_of_closed MAXLINE _ log hlen0 (Or.inl rfl))]
    rfl
  -- the state after a line of `n` bytes has been removed
  have hrem4 : remove_buffered_line MAXLINE
      ⟨[97, 98, 13, 10] ++ List.replicate (MAXLINE - 4) 0, 4, none⟩
      = ⟨List.replicate MAXLINE 0, 0, none⟩ := by
    rw [remove_buffered_line_of_found MAXLINE (⟨[97, 98, 13, 10] ++ List.replicate (MAXLINE - 4) 0, 4, none⟩ : ClientState) ⟨?_, ?_, ?_⟩ 4 hw4]
    · rfl
    · rw [List.length_append, List.length_replicate]
      show 4 + (MAXLINE - 4) = MAXLINE
      omega
    · show (0 : Int) ≤ 4
      omega
    · show (4 : Int) < MAXLINE
      omega
  have hrem3 : remove_buffered_line MAXLINE
      ⟨[98, 13, 10] ++ List.replicate (MAXLINE - 3) 0, 3, none⟩
      = ⟨List.replicate MAXLINE 0, 0, none⟩ := by
    rw [remove_buffered_line_of_found MAXLINE (⟨[98, 13, 10] ++ List.replicate (MAXLINE - 3) 0, 3, none⟩ : ClientState) ⟨?_, ?_, ?_⟩ 3 hw3]
    · rfl
    · rw [List.length_append, List.length_replicate]
      show 3 + (MAXLINE - 3) = MAXLINE
      omega
    · show (0 : Int) ≤ 3
      omega
    · show (3 : Int) < MAXLINE
      omega
  constructor
  · have hread : read_from_client MAXLINE ⟨List.replicate MAXLINE 0, 0, none⟩
        ⟨[.data [97, 98, 13, 10]], []⟩
        = (4, ⟨[97, 98, 13, 10] ++ List.replicate (MAXLINE - 4) 0, 4, none⟩,
            ⟨[], [(0, MAXLINE - 1)]⟩) := by
      rw [read_from_client_of_no_line MAXLINE _ [97, 98, 13, 10] [] [] hlen0
        (Or.inl rfl) (by show 4 < MAXLINE; omega)]
      rfl
    unfold get_boundary
    rw [get_boundary_loop_read H MAXLINE 2 (⟨List.replicate MAXLINE 0, 0, none⟩ : ClientState) _ _ _ _ _ hneg hread, if_neg hpos4,
      get_boundary_loop_skip H MAXLINE 1 (⟨[97, 98, 13, 10] ++ List.replicate (MAXLINE - 4) 0, 4, none⟩ : ClientState) _ _ 4 hw4 (by omega) (Or.inl hH), hrem4]
    exact hlast _ _ 0
  · have hread1 : read_from_client MAXLINE ⟨List.replicate MAXLINE 0, 0, none⟩
        ⟨[.data [97], .data [98, 13, 10]], []⟩
        = (1, ⟨[97] ++ List.replicate (MAXLINE - 1) 0, 1, none⟩,
            ⟨[.data [98, 13, 10]], [(0, MAXLINE - 1)]⟩) := by
      rw [read_from_client_of_no_line MAXLINE _ [97] _ [] hlen0
        (Or.inl rfl) (by show 1 < MAXLINE; omega)]
      rfl
    have hread2 : read_from_client MAXLINE
        ⟨[97] ++ List.replicate (MAXLINE - 1) 0, 1, none⟩
        ⟨[.data [98, 13, 10]], [(0, MAXLINE - 1)]⟩
        = (3, ⟨[98, 13, 10] ++ List.replicate (MAXLINE - 3) 0, 3, none⟩,
            ⟨[], [(0, MAXLINE - 1), (0, MAXLINE - 1)]⟩) := by
      rw [read_from_client_of_no_line MAXLINE
        ⟨[97] ++ List.replicate (MAXLINE - 1) 0, 1, none⟩ [98, 13, 10] [] _ ?_
        (Or.inr rfl) (by show 3 < MAXLINE; omega)]
      · rfl
      · rw [List.length_append, List.length_replicate]
        show 1 + (MAXLINE - 1) = MAXLINE
        omega
    have hneg1 : ¬ (0 : Int) < find_network_newline
        ([97] ++ List.replicate (MAXLINE - 1) 0) 1 := hneg
    unfold get_boundary
    rw [get_boundary_loop_read H MAXLINE 3 (⟨List.replicate MAXLINE 0, 0, none⟩ : ClientState) _ _ _ _ _ hneg hread1, if_neg hpos1,
      get_boundary_loop_read H MAXLINE 2 (⟨[97] ++ List.replicate (MAXLINE - 1) 0, 1, none⟩ : ClientState) _ _ _ _ _ hneg1 hread2, if_neg hpos3,
      get_boundary_loop_skip H MAXLINE 1 (⟨[98, 13, 10] ++ List.replicate (MAXLINE - 3) 0, 3, none⟩ : ClientState) _ _ 3 hw3 (by omega) (Or.inl (by omega)),
      hrem3]
    exact hlast _ _ 0

/-- C3's failure in an array of 8 bytes with a header of 9 bytes: the lines
met differ between the two deliveries of the same stream. -/
theorem get_boundary_chunking_diverges_witness :
    (get_boundary [98, 111, 117, 110, 100, 97, 114, 121, 61] 8 3
        ⟨List.replicate 8 0, 0, none⟩ ⟨[.data [97, 98, 13, 10]], []⟩
      = some (none, ⟨List.replicate 8 0, 0, none⟩,
          ⟨[], [(0, 8 - 1), (0, 8 - 1)]⟩, [[97, 98, 13, 10]])) ∧
    (get_boundary [98, 111, 117, 110, 100, 97, 114, 121, 61] 8 4
        ⟨List.replicate 8 0, 0, none⟩ ⟨[.data [97], .data [98, 13, 10]], []⟩
      = some (none, ⟨List.replicate 8 0, 0, none⟩,
          ⟨[], [(0, 8 - 1), (0, 8 - 1), (0, 8 - 1)]⟩, [[98, 13, 10]])) :=
  get_boundary_chunking_diverges [98, 111, 117, 110, 100, 97, 114, 121, 61] 8
    (by decide) (by decide)

end Request

namespace Request

/-! ## `parse_query` -/

/-- `strchr` finds a byte that follows bytes different from it. -/
theorem strchr_append_cons (a b : List Byte) (c : Byte) (h : c ∉ a) :
    strchr (a ++ c :: b) c = some a.length := by
  induction a with
  | nil => simp [strchr]
  | cons x xs ih =>
    have hx : x ≠ c := fun e => h (by simp [e])
    have hxs : c ∉ xs := fun e => h (by simp [e])
    simp [strchr, hx, ih hxs]

/-- `strchr` returns `NULL` on a string without the byte. -/
theorem strchr_of_not_mem (a : List Byte) (c : Byte) (h : c ∉ a) :
    strchr a c = none := by
  induction a with
  | nil => rfl
  | cons x xs ih =>
    have hx : x ≠ c := fun e => h (by simp [e])
    have hxs : c ∉ xs := fun e => h (by simp [e])
    simp [strchr, hx, ih hxs]

/-- `strchr` returns `NULL` only on a string without the byte. -/
theorem not_mem_of_strchr_none (a : List Byte) (c : Byte) (h : strchr a c = none) :
    c ∉ a := by
  induction a with
  | nil => simp
  | cons x xs ih =>
    by_cases hx : x = c
    · simp [strchr, hx] at h
    · simp only [strchr, if_neg hx, Option.map_eq_none'] at h
      intro hm
      rcases List.mem_cons.1 hm with e | e
      · exact hx e.symm
      · exact ih h e

/-- A segment of at least one pair starts with the bytes of its first pair,
and what follows is empty or `'&'` and the segment of the other pairs. -/
theorem joinPairs_cons (p : List Byte × List Byte) (rest : List (List Byte × List Byte)) :
    joinPairs (p :: rest) =
      p.1 ++ EQUALS :: (p.2 ++ (if rest = [] then [] else AMP :: joinPairs rest)) := by
  cases rest with
  | nil => simp [joinPairs, pairBytes]
  | cons q qs => simp [joinPairs, pairBytes]

/-- One iteration of the `while` loop on a segment of pairs stores the first
pair and moves on to the segment of the others. -/
theorem parse_query_loop_cons (slots : Nat) (p : List Byte × List Byte)
    (rest : List (List Byte × List Byte)) (params : List Fdata) (index : Nat)
    (hp : EQUALS ∉ p.1 ∧ AMP ∉ p.1 ∧ AMP ∉ p.2) :
    parse_query_loop (slots + 1) (joinPairs (p :: rest)) params index =
      parse_query_loop slots (joinPairs rest)
        (params.set index (Fdata.present p)) (index + 1) := by
  have hne : joinPairs (p :: rest) ≠ [] := by
    rw [joinPairs_cons]; simp
  have hkey : strchr (joinPairs (p :: rest)) EQUALS = some p.1.length := by
    rw [joinPairs_cons]; exact strchr_append_cons _ _ _ hp.1
  have hdrop : (joinPairs (p :: rest)).drop (p.1.length + 1)
      = p.2 ++ (if rest = [] then [] else AMP :: joinPairs rest) := by
    rw [joinPairs_cons, List.drop_append]
    rfl
  have htake : (joinPairs (p :: rest)).take p.1.length = p.1 := by
    rw [joinPairs_cons]
    simp
  rw [parse_query_loop]
  simp only [if_neg hne, hkey, hdrop, htake]
  by_cases hr : rest = []
  · subst hr
    have hv : strchr (p.2 ++ []) AMP = none := by
      rw [List.append_nil]; exact strchr_of_not_mem _ _ hp.2.2
    simp only [if_true, hv]
    simp [joinPairs, Fdata.present]
  · have hv : strchr (p.2 ++ AMP :: joinPairs rest) AMP = some p.2.length :=
      strchr_append_cons _ _ _ hp.2.2
    simp only [if_neg hr, hv]
    simp [Fdata.present]

/-- The `while` loop on a segment of pairs stores its first `slots` pairs,
in order, from slot `index` on. -/
theorem parse_query_loop_joinPairs :
    ∀ (slots : Nat) (pairs : List (List Byte × List Byte)) (params : List Fdata)
      (index : Nat), GoodPairs pairs →
      parse_query_loop slots (joinPairs pairs) params index =
        (fillFrom params index (pairs.take slots), index + (pairs.take slots).length) := by
  intro slots
  induction slots with
  | zero =>
    intro pairs params index _
    simp [parse_query_loop, fillFrom]
  | succ n ih =>
    intro pairs params index hg
    cases pairs with
    | nil => simp [parse_query_loop, joinPairs, fillFrom]
    | cons p rest =>
      rw [parse_query_loop_cons n p rest params index (hg p (by simp)),
        ih rest _ _ (fun q hq => hg q (by simp [hq]))]
      simp only [List.take_succ_cons, fillFrom, List.length_cons]
      congr 1
      omega

/-- The slots written by `fillFrom`, one by one. -/
theorem getElem?_fillFrom :
    ∀ (ps : List (List Byte × List Byte)) (params : List Fdata) (index j : Nat),
      (fillFrom params index ps)[j]? =
        if index ≤ j ∧ j < index + ps.length ∧ j < params.length then
          (ps[j - index]?).map Fdata.present
        else params[j]? := by
  intro ps
  induction ps with
  | nil =>
    intro params index j
    have : ¬ (index ≤ j ∧ j < index + ([] : List (List Byte × List Byte)).length ∧
        j < params.length) := by
      simp only [List.length_nil]; omega
    rw [if_neg this]; rfl
  | cons p rest ih =>
    intro params index j
    rw [fillFrom, ih, List.length_set, List.getElem?_set]
    by_cases h1 : index = j
    · subst h1
      by_cases h2 : index < params.length
      · have hA : ¬ (index + 1 ≤ index ∧ index < index + 1 + rest.length ∧
            index < params.length) := by omega
        have hB : index ≤ index ∧ index < index + (p :: rest).length ∧
            index < params.length := by
          simp only [List.length_cons]; omega
        rw [if_neg hA, if_pos hB]
        simp [h2]
      · have hA : ¬ (index + 1 ≤ index ∧ index < index + 1 + rest.length ∧
            index < params.length) := by omega
        have hB : ¬ (index ≤ index ∧ index < index + (p :: rest).length ∧
            index < params.length) := by omega
        rw [if_neg hA, if_neg hB]
        simp [h2]
        omega
    · by_cases h2 : index + 1 ≤ j ∧ j < index + 1 + rest.length ∧ j < params.length
      · have hB : index ≤ j ∧ j < index + (p :: rest).length ∧ j < params.length := by
          simp only [List.length_cons]; omega
        rw [if_pos h2, if_pos hB]
        have e : j - index = (j - (index + 1)) + 1 := by omega
        rw [e, List.getElem?_cons_succ]
      · have hB : ¬ (index ≤ j ∧ j < index + (p :: rest).length ∧
            j < params.length) := by
          simp only [List.length_cons]; omega
        rw [if_neg h2, if_neg hB, if_neg h1]

/-- The slots written by the closing loop of `parse_query`, one by one. -/
theorem getElem?_null_params_loop :
    ∀ (n : Nat) (params : List Fdata) (i j : Nat),
      (null_params_loop n i params)[j]? =
        if i ≤ j ∧ j < i + n ∧ j < params.length then some Fdata.absent
        else params[j]? := by
  intro n
  induction n with
  | zero =>
    intro params i j
    have : ¬ (i ≤ j ∧ j < i + 0 ∧ j < params.length) := by omega
    rw [if_neg this]; rfl
  | succ n ih =>
    intro params i j
    rw [null_params_loop, ih, List.length_set, List.getElem?_set]
    by_cases h1 : i = j
    · subst h1
      have hA : ¬ (i + 1 ≤ i ∧ i < i + 1 + n ∧ i < params.length) := by omega
      rw [if_neg hA]
      by_cases h2 : i < params.length
      · have hB : i ≤ i ∧ i < i + (n + 1) ∧ i < params.length := by omega
        rw [if_pos hB]; simp [h2]
      · have hB : ¬ (i ≤ i ∧ i < i + (n + 1) ∧ i < params.length) := by omega
        rw [if_neg hB]; simp [h2]; omega
    · by_cases h2 : i + 1 ≤ j ∧ j < i + 1 + n ∧ j < params.length
      · have hB : i ≤ j ∧ j < i + (n + 1) ∧ j < params.length := by omega
        rw [if_pos h2, if_pos hB]
      · have hB : ¬ (i ≤ j ∧ j < i + (n + 1) ∧ j < params.length) := by omega
        rw [if_neg h2, if_neg hB, if_neg h1]

end Request

namespace Request

/-- `fillFrom` keeps the number of slots. -/
theorem length_fillFrom :
    ∀ (ps : List (List Byte × List Byte)) (params : List Fdata) (index : Nat),
      (fillFrom params index ps).length = params.length := by
  intro ps
  induction ps with
  | nil => intro params index; rfl
  | cons p rest ih =>
    intro params index
    rw [fillFrom, ih, List.length_set]

/-- What `parse_query` leaves in the slots for a segment of pairs. -/
theorem parse_query_joinPairs (MAX_QUERY_PARAMS : Nat) (req : ReqData)
    (pairs : List (List Byte × List Byte)) (hne : pairs ≠ []) (hg : GoodPairs pairs)
    (hlen : req.params.length = MAX_QUERY_PARAMS) :
    parse_query MAX_QUERY_PARAMS req (some (joinPairs pairs)) =
      { req with
        params := (pairs.take MAX_QUERY_PARAMS).map Fdata.present ++
          List.replicate (MAX_QUERY_PARAMS - pairs.length) Fdata.absent } := by
  obtain ⟨p, rest, rfl⟩ := List.exists_cons_of_ne_nil hne
  have hkey : strchr (joinPairs (p :: rest)) EQUALS = some p.1.length := by
    rw [joinPairs_cons]; exact strchr_append_cons _ _ _ (hg p (by simp)).1
  have hlen0 : ¬ ((joinPairs (p :: rest)).length = 0 ∨
      strchr (joinPairs (p :: rest)) EQUALS = none) := by
    rw [hkey, joinPairs_cons]
    simp
  simp only [parse_query, if_neg hlen0, parse_query_loop_joinPairs _ _ _ _ hg]
  congr 1
  apply List.ext_getElem?
  intro j
  rw [getElem?_null_params_loop, length_fillFrom, getElem?_fillFrom, hlen,
    List.getElem?_append, List.getElem?_map, List.length_map, List.getElem?_replicate]
  have hk : ((p :: rest).take MAX_QUERY_PARAMS).length
      = min MAX_QUERY_PARAMS (p :: rest).length := List.length_take _ _
  generalize (p :: rest).take MAX_QUERY_PARAMS = T at hk ⊢
  generalize (p :: rest).length = n at hk ⊢
  by_cases h1 : j < T.length
  · have hA : ¬ (0 + T.length ≤ j ∧ j < 0 + T.length + (MAX_QUERY_PARAMS - (0 + T.length)) ∧
        j < MAX_QUERY_PARAMS) := by omega
    have hB : 0 ≤ j ∧ j < 0 + T.length ∧ j < MAX_QUERY_PARAMS := by omega
    rw [if_neg hA, if_pos hB, if_pos h1]
    rfl
  · by_cases h2 : j < MAX_QUERY_PARAMS
    · have hA : 0 + T.length ≤ j ∧ j < 0 + T.length + (MAX_QUERY_PARAMS - (0 + T.length)) ∧
          j < MAX_QUERY_PARAMS := by omega
      have hC : j - T.length < MAX_QUERY_PARAMS - n := by omega
      rw [if_pos hA, if_neg h1, if_pos hC]
    · have hA : ¬ (0 + T.length ≤ j ∧
          j < 0 + T.length + (MAX_QUERY_PARAMS - (0 + T.length)) ∧
          j < MAX_QUERY_PARAMS) := by omega
      have hB : ¬ (0 ≤ j ∧ j < 0 + T.length ∧ j < MAX_QUERY_PARAMS) := by omega
      have hC : ¬ (j - T.length < MAX_QUERY_PARAMS - n) := by omega
      rw [if_neg hA, if_neg hB, if_neg h1, if_neg hC]
      exact List.getElem?_eq_none (by omega)

/-- C7. For a segment of `n ≥ 1` pairs `name=value` joined by `'&'`, no name
holding `'='` or `'&'` and no value holding `'&'`, `parse_query` leaves in the
slots exactly the first `min n MAX_QUERY_PARAMS` pairs, copied as they are
and in input order, and every later slot absent; `method` and `path` are not
touched.  A segment of `MAX_QUERY_PARAMS + 1` pairs gives exactly its first
`MAX_QUERY_PARAMS` pairs. -/
theorem parse_query_pairs (MAX_QUERY_PARAMS : Nat) (req : ReqData)
    (pairs : List (List Byte × List Byte)) (hne : pairs ≠ []) (hg : GoodPairs pairs)
    (hlen : req.params.length = MAX_QUERY_PARAMS) :
    (parse_query MAX_QUERY_PARAMS req (some (joinPairs pairs))).params =
      (pairs.take (min pairs.length MAX_QUERY_PARAMS)).map Fdata.present ++
        List.replicate (MAX_QUERY_PARAMS - min pairs.length MAX_QUERY_PARAMS)
          Fdata.absent ∧
    (parse_query MAX_QUERY_PARAMS req (some (joinPairs pairs))).method = req.method ∧
    (parse_query MAX_QUERY_PARAMS req (some (joinPairs pairs))).path = req.path ∧
    (pairs.length = MAX_QUERY_PARAMS + 1 →
      (parse_query MAX_QUERY_PARAMS req (some (joinPairs pairs))).params =
        (pairs.take MAX_QUERY_PARAMS).map Fdata.present) := by
  have hmain := parse_query_joinPairs MAX_QUERY_PARAMS req pairs hne hg hlen
  have htake : pairs.take (min pairs.length MAX_QUERY_PARAMS)
      = pairs.take MAX_QUERY_PARAMS := by
    rcases Nat.le_total pairs.length MAX_QUERY_PARAMS with h | h
    · rw [Nat.min_eq_left h, List.take_of_length_le h, List.take_of_length_le (le_refl _)]
    · rw [Nat.min_eq_right h]
  have hsub : MAX_QUERY_PARAMS - min pairs.length MAX_QUERY_PARAMS
      = MAX_QUERY_PARAMS - pairs.length := by omega
  refine ⟨?_, ?_, ?_, ?_⟩
  · rw [hmain, htake, hsub]
  · rw [hmain]
  · rw [hmain]
  · intro hn
    rw [hmain]
    have h0 : MAX_QUERY_PARAMS - pairs.length = 0 := by omega
    simp only [h0, List.replicate_zero, List.append_nil]

/-- C7 at `"a=1&b=2"` with five slots holding leftovers: the pairs `(a,1)`
and `(b,2)`, then three absent slots. -/
theorem parse_query_pairs_witness :
    (parse_query 5 ⟨none, none, List.replicate 5 ⟨some [7], some [8]⟩⟩
        (some [97, 61, 49, 38, 98, 61, 50])).params =
      [⟨some [97], some [49]⟩, ⟨some [98], some [50]⟩, Fdata.absent, Fdata.absent,
        Fdata.absent] :=
  (parse_query_pairs 5 ⟨none, none, List.replicate 5 ⟨some [7], some [8]⟩⟩
    [([97], [49]), ([98], [50])] (by decide)
    (by intro p hp; fin_cases hp <;> decide) (by decide)).1

end Request

namespace Request

/-- C8 fails on the code. On a `NULL` segment, an empty segment and a
segment without `'='`, `parse_query` returns before it writes anything: the
record is left as it was, so a slot that held leftovers before the call is
still populated after it. -/
theorem parse_query_no_pairs_unchanged (MAX_QUERY_PARAMS : Nat) (req : ReqData) :
    parse_query MAX_QUERY_PARAMS req none = req ∧
    parse_query MAX_QUERY_PARAMS req (some []) = req ∧
    (∀ s : List Byte, EQUALS ∉ s → parse_query MAX_QUERY_PARAMS req (some s) = req) := by
  refine ⟨rfl, rfl, ?_⟩
  intro s hs
  simp only [parse_query, strchr_of_not_mem s EQUALS hs, or_true, if_true]

/-- C8's failure on a record of five slots whose first slot holds leftovers
and the segment `"noequals"`: the slot is still populated. -/
theorem parse_query_no_pairs_unchanged_witness :
    (parse_query 5
        ⟨none, none, ⟨some [120], some [121]⟩ :: List.replicate 4 Fdata.absent⟩
        (some [110, 111, 101, 113, 117, 97, 108, 115])).params.head?
      = some ⟨some [120], some [121]⟩ :=
  congrArg (fun r => r.params.head?)
    ((parse_query_no_pairs_unchanged 5
      ⟨none, none, ⟨some [120], some [121]⟩ :: List.replicate 4 Fdata.absent⟩).2.2
      [110, 111, 101, 113, 117, 97, 108, 115] (by decide))

/-! ## `parse_req_start_line` -/

/-- C10. `parse_req_start_line` returns 0 if and only if the first
`num_bytes` bytes of the buffer hold no CR LF, and then the state (buffer,
`num_bytes` and the absent request) is left as it was. -/
theorem parse_req_start_line_not_ready (MAX_QUERY_PARAMS : Nat) (c : ClientState)
    (alloc : Option ReqData) (hreq : c.reqData = none) :
    ((parse_req_start_line MAX_QUERY_PARAMS c alloc).1 = .returned 0 ↔
      ∀ k, ¬ CrlfAt c.buf c.num_bytes k) ∧
    ((∀ k, ¬ CrlfAt c.buf c.num_bytes k) →
      (parse_req_start_line MAX_QUERY_PARAMS c alloc).2 = c ∧
      (parse_req_start_line MAX_QUERY_PARAMS c alloc).2.reqData = none) := by
  have hyes : find_network_newline c.buf c.num_bytes = -1 →
      parse_req_start_line MAX_QUERY_PARAMS c alloc = (.returned 0, c) := by
    intro h
    simp only [parse_req_start_line, h, if_true]
  have hno : find_network_newline c.buf c.num_bytes ≠ -1 →
      (parse_req_start_line MAX_QUERY_PARAMS c alloc).1 ≠ .returned 0 := by
    intro h
    simp only [parse_req_start_line, if_neg h]
    cases alloc with
    | none => simp
    | some fresh =>
      dsimp only
      split
      · simp
      · split
        · simp
        · simp
  constructor
  · constructor
    · intro h
      by_contra hc
      exact hno (fun e => hc ((find_network_newline_eq_neg_one_iff _ _).1 e)) h
    · intro h
      rw [hyes ((find_network_newline_eq_neg_one_iff _ _).2 h)]
  · intro h
    rw [hyes ((find_network_newline_eq_neg_one_iff _ _).2 h)]
    exact ⟨rfl, hreq⟩

/-- C10 at the partial line `"GET /"`: the result is 0 and nothing moves. -/
theorem parse_req_start_line_not_ready_witness :
    (parse_req_start_line 5 ⟨[71, 69, 84, 32, 47, 0, 0, 0], 5, none⟩ none).2
        = ⟨[71, 69, 84, 32, 47, 0, 0, 0], 5, none⟩ ∧
    (parse_req_start_line 5 ⟨[71, 69, 84, 32, 47, 0, 0, 0], 5, none⟩ none).2.reqData
        = none :=
  (parse_req_start_line_not_ready 5 ⟨[71, 69, 84, 32, 47, 0, 0, 0], 5, none⟩ none
    rfl).2 ((find_network_newline_eq_neg_one_iff _ _).1 (by decide))

end Request

namespace Request

/-- The closing loop of `parse_req_start_line` changes nothing when every
slot with a `NULL` name is already absent. -/
theorem init_params_loop_of_clean :
    ∀ (n i : Nat) (params : List Fdata),
      (∀ slot ∈ params, slot.name = none → slot = Fdata.absent) →
      init_params_loop n i params = params := by
  intro n
  induction n with
  | zero => intro i params _; rfl
  | succ n ih =>
    intro i params hclean
    rw [init_params_loop]
    rcases hget : params[i]? with _ | slot
    · exact ih (i + 1) params hclean
    · have hmem : slot ∈ params := List.getElem?_mem hget
      by_cases hname : slot.name = none
      · have hset : params.set i Fdata.absent = params := by
          apply List.ext_getElem?
          intro j
          rw [List.getElem?_set]
          by_cases hij : i = j
          · subst hij
            have hi : params[i]? = some slot := hget
            have hlt : i < params.length := by
              rcases Nat.lt_or_ge i params.length with h | h
              · exact h
              · rw [List.getElem?_eq_none h] at hi; cases hi
            rw [if_pos rfl, if_pos hlt, hi, hclean slot hmem hname]
          · rw [if_neg hij]
        simp only [if_pos hname, hset]
        exact ih (i + 1) params hclean
      · simp only [if_neg hname]
        exact ih (i + 1) params hclean

/-- C9, as stated, fails: on the request line
`GET /index.html?x=1&y=2 HTTP/1.1` the path stored is `"/index.html"`, with
its leading slash, not `"index.html"`. -/
theorem parse_req_start_line_example_counterexample :
    ((parse_req_start_line 5 ⟨exampleRequestLine ++ List.replicate 30 0, 34, none⟩
        (some ⟨none, none, List.replicate 5 Fdata.absent⟩)).2.reqData.map
          (fun r => r.path))
      ≠ some (some [105, 110, 100, 101, 120, 46, 104, 116, 109, 108]) := by
  decide

/-- C9, amended. When the buffer holds the request line
`GET /index.html?x=1&y=2 HTTP/1.1` and its CR LF, whatever follows in the
array and whatever the fresh record holds, with at least two parameter
slots, `parse_req_start_line` returns 1 with method `"GET"`, path
`"/index.html"` and the parameters `(x,1)`, `(y,2)` followed by absent
slots. -/
theorem parse_req_start_line_example (MAX_QUERY_PARAMS : Nat) (tail : List Byte)
    (fresh : ReqData) (h2 : 2 ≤ MAX_QUERY_PARAMS)
    (hlen : fresh.params.length = MAX_QUERY_PARAMS) :
    parse_req_start_line MAX_QUERY_PARAMS ⟨exampleRequestLine ++ tail, 34, none⟩
        (some fresh) =
      (.returned 1,
        ⟨[71, 69, 84, 0, 47, 105, 110, 100, 101, 120, 46, 104, 116, 109, 108, 0,
            120, 61, 49, 38, 121, 61, 50, 0, 72, 84, 84, 80, 47, 49, 46, 49, 13, 10]
            ++ tail,
          34,
          some ⟨some [71, 69, 84],
            some [47, 105, 110, 100, 101, 120, 46, 104, 116, 109, 108],
            [⟨some [120], some [49]⟩, ⟨some [121], some [50]⟩] ++
              List.replicate (MAX_QUERY_PARAMS - 2) Fdata.absent⟩⟩) := by
  have hq := parse_query_joinPairs MAX_QUERY_PARAMS
    ⟨some [71, 69, 84], some [47, 105, 110, 100, 101, 120, 46, 104, 116, 109, 108],
      fresh.params⟩
    [([120], [49]), ([121], [50])] (by simp)
    (by
      intro p hp
      simp only [List.mem_cons, List.mem_singleton, List.not_mem_nil, or_false] at hp
      rcases hp with rfl | rfl <;> decide)
    hlen
  have ht : ([([120], [49]), ([121], [50])] : List (List Byte × List Byte)).take
      MAX_QUERY_PARAMS = [([120], [49]), ([121], [50])] :=
    List.take_of_length_le h2
  rw [ht] at hq
  have hfind : find_network_newline (exampleRequestLine ++ tail) 34 ≠ -1 := by
    have : find_network_newline (exampleRequestLine ++ tail) 34 = 34 := rfl
    rw [this]; omega
  have t1 : strtok (exampleRequestLine ++ tail) 0 [SPACE] =
      (some 0,
        [71, 69, 84, 0, 47, 105, 110, 100, 101, 120, 46, 104, 116, 109, 108, 63,
          120, 61, 49, 38, 121, 61, 50, 32, 72, 84, 84, 80, 47, 49, 46, 49, 13, 10]
          ++ tail, 4) := rfl
  have c1 : cstr ([71, 69, 84, 0, 47, 105, 110, 100, 101, 120, 46, 104, 116, 109, 108,
      63, 120, 61, 49, 38, 121, 61, 50, 32, 72, 84, 84, 80, 47, 49, 46, 49, 13, 10]
      ++ tail) 0 = [71, 69, 84] := rfl
  have t2 : strtok ([71, 69, 84, 0, 47, 105, 110, 100, 101, 120, 46, 104, 116, 109, 108,
      63, 120, 61, 49, 38, 121, 61, 50, 32, 72, 84, 84, 80, 47, 49, 46, 49, 13, 10]
      ++ tail) 4 [SPACE, QUESTION] =
      (some 4,
        [71, 69, 84, 0, 47, 105, 110, 100, 101, 120, 46, 104, 116, 109, 108, 0,
          120, 61, 49, 38, 121, 61, 50, 32, 72, 84, 84, 80, 47, 49, 46, 49, 13, 10]
          ++ tail, 16) := rfl
  have c2 : cstr ([71, 69, 84, 0, 47, 105, 110, 100, 101, 120, 46, 104, 116, 109, 108,
      0, 120, 61, 49, 38, 121, 61, 50, 32, 72, 84, 84, 80, 47, 49, 46, 49, 13, 10]
      ++ tail) 4 = [47, 105, 110, 100, 101, 120, 46, 104, 116, 109, 108] := rfl
  have t3 : strtok ([71, 69, 84, 0, 47, 105, 110, 100, 101, 120, 46, 104, 116, 109, 108,
      0, 120, 61, 49, 38, 121, 61, 50, 32, 72, 84, 84, 80, 47, 49, 46, 49, 13, 10]
      ++ tail) 16 [SPACE] =
      (some 16,
        [71, 69, 84, 0, 47, 105, 110, 100, 101, 120, 46, 104, 116, 109, 108, 0,
          120, 61, 49, 38, 121, 61, 50, 0, 72, 84, 84, 80, 47, 49, 46, 49, 13, 10]
          ++ tail, 24) := rfl
  have c3 : cstr ([71, 69, 84, 0, 47, 105, 110, 100, 101, 120, 46, 104, 116, 109, 108,
      0, 120, 61, 49, 38, 121, 61, 50, 0, 72, 84, 84, 80, 47, 49, 46, 49, 13, 10]
      ++ tail) 16 = joinPairs [([120], [49]), ([121], [50])] := rfl
  unfold parse_req_start_line
  dsimp only
  rw [if_neg hfind]
  simp only [t1]
  simp only [c1, t2]
  simp only [c2, t3]
  simp only [c3, hq]
  have hclean : ∀ slot ∈ ([([120], [49]), ([121], [50])] : List (List Byte × List Byte)).map
      Fdata.present ++ List.replicate (MAX_QUERY_PARAMS - 2) Fdata.absent,
      slot.name = none → slot = Fdata.absent := by
    intro slot hs hn
    rcases List.mem_append.1 hs with h | h
    · simp only [List.map_cons, List.map_nil, List.mem_cons, List.mem_singleton,
        List.not_mem_nil, or_false] at h
      rcases h with rfl | rfl <;> simp [Fdata.present] at hn
    · exact (List.mem_replicate.1 h).2
  have hinit := init_params_loop_of_clean MAX_QUERY_PARAMS 0 _ hclean
  simp only [List.length_cons, List.length_nil] at hinit ⊢
  rw [hinit]
  rfl

/-- C9, amended, with five slots and an array of 64 bytes. -/
theorem parse_req_start_line_example_witness :
    (parse_req_start_line 5 ⟨exampleRequestLine ++ List.replicate 30 0, 34, none⟩
        (some ⟨none, none, List.replicate 5 ⟨some [1], none⟩⟩)).2.reqData =
      some ⟨some [71, 69, 84],
        some [47, 105, 110, 100, 101, 120, 46, 104, 116, 109, 108],
        [⟨some [120], some [49]⟩, ⟨some [121], some [50]⟩, Fdata.absent,
          Fdata.absent, Fdata.absent]⟩ :=
  congrArg (fun r => r.2.reqData)
    (parse_req_start_line_example 5 (List.replicate 30 0)
      ⟨none, none, List.replicate 5 ⟨some [1], none⟩⟩ (by decide) (by decide))

end Request

namespace Request

/-! ## The invariant `0 ≤ num_bytes < MAXLINE` -/

/-- `remove_buffered_line` leaves the buffer empty or shorter by at least the
two bytes of a CR LF. -/
theorem remove_buffered_line_num_bytes (MAXLINE : Nat) (c : ClientState)
    (hwf : WellFormed MAXLINE c) :
    (remove_buffered_line MAXLINE c).num_bytes = 0 ∨
    (remove_buffered_line MAXLINE c).num_bytes + 2 ≤ c.num_bytes := by
  rcases find_network_newline_cases c.buf c.num_bytes with ⟨k, h1, _, h3⟩ | ⟨_, h2⟩
  · have h3' : find_network_newline c.buf c.num_bytes = ((k + 2 : Nat) : Int) := by
      rw [h3]; push_cast; ring
    rw [remove_buffered_line_of_found MAXLINE c hwf (k + 2) h3']
    right
    show c.num_bytes - ((k + 2 : Nat) : Int) + 2 ≤ c.num_bytes
    omega
  · rw [remove_buffered_line_of_not_found MAXLINE c hwf.1 (Or.inr h2)]
    left
    rfl

/-- `read_from_client` keeps a well-formed state well-formed, whatever the
read gives. -/
theorem read_from_client_wellFormed (MAXLINE : Nat) (c : ClientState) (s : Socket)
    (hwf : WellFormed MAXLINE c) :
    WellFormed MAXLINE (read_from_client MAXLINE c s).2.1 := by
  obtain ⟨⟨hlen, h0, hlt⟩, _⟩ := remove_buffered_line_wellFormed MAXLINE c hwf
  have heq := read_from_client_eq MAXLINE c s
  generalize remove_buffered_line MAXLINE c = c1 at hlen h0 hlt heq
  have hle := sys_read_length_le s c1.num_bytes.toNat
    ((MAXLINE : Int) - c1.num_bytes - 1).toNat
  generalize sys_read s c1.num_bytes.toNat
    ((MAXLINE : Int) - c1.num_bytes - 1).toNat = r at heq hle
  rcases hr : r.1 with d | _
  · have hdle := hle d hr
    have hfit : c1.num_bytes.toNat + d.length ≤ c1.buf.length := by omega
    obtain ⟨_, _, s3⟩ := store_spec c1.buf c1.num_bytes.toNat d hfit
    rw [heq, hr]
    refine ⟨by rw [← hlen]; exact s3, ?_, ?_⟩
    · show 0 ≤ c1.num_bytes + (d.length : Int)
      omega
    · show c1.num_bytes + (d.length : Int) < MAXLINE
      omega
  · rw [heq, hr]
    exact ⟨hlen, h0, hlt⟩

/-- C16. The invariant `0 ≤ num_bytes < MAXLINE` (with the array of
`MAXLINE` bytes) is kept by `remove_buffered_line` and by
`read_from_client`, for every socket: a read that delivers bytes, delivers
none, or fails. -/
theorem wellFormed_preserved (MAXLINE : Nat) (c : ClientState) (s : Socket)
    (hwf : WellFormed MAXLINE c) :
    WellFormed MAXLINE (remove_buffered_line MAXLINE c) ∧
    WellFormed MAXLINE (read_from_client MAXLINE c s).2.1 :=
  ⟨(remove_buffered_line_wellFormed MAXLINE c hwf).1,
    read_from_client_wellFormed MAXLINE c s hwf⟩

/-- C16 on a buffer of 8 bytes holding a line and a partial line, with a
chunk larger than the room left. -/
theorem wellFormed_preserved_witness :
    WellFormed 8 (remove_buffered_line 8 ⟨[104, 13, 10, 97, 0, 0, 0, 0], 4, none⟩) ∧
    WellFormed 8 (read_from_client 8 ⟨[104, 13, 10, 97, 0, 0, 0, 0], 4, none⟩
      ⟨[.data [1, 2, 3, 4, 5, 6, 7, 8, 9]], []⟩).2.1 :=
  wellFormed_preserved 8 ⟨[104, 13, 10, 97, 0, 0, 0, 0], 4, none⟩
    ⟨[.data [1, 2, 3, 4, 5, 6, 7, 8, 9]], []⟩ ⟨by decide, by decide, by decide⟩

/-! ## Room asked for by `read_from_client` -/

/-- A read asked for at least one byte delivers none only at the end of the
stream: nothing is pending, or the next event is the empty chunk. -/
theorem sys_read_nil (s : Socket) (off count : Nat) (hc : 1 ≤ count)
    (h : (sys_read s off count).1 = .bytes []) :
    s.pending = [] ∨ ∃ rest, s.pending = .data [] :: rest := by
  unfold sys_read at h
  rcases hs : s.pending with _ | ⟨e, rest⟩
  · left; rfl
  · right
    cases e with
    | failure => simp [hs] at h
    | data b =>
      simp only [hs] at h
      by_cases hb : b.length ≤ count
      · rw [if_pos hb] at h
        injection h with h
        subst h
        exact ⟨rest, rfl⟩
      · rw [if_neg hb] at h
        injection h with h
        have hl : (b.take count).length = 0 := by rw [h]; rfl
        rw [List.length_take] at hl
        omega

/-- C19. In a state with `0 ≤ num_bytes < MAXLINE` and `MAXLINE ≥ 2`, the
read made by `read_from_client` asks for at least one byte:
`MAXLINE - n' - 1 ≥ 1` for `n'` the length left by `remove_buffered_line`.
So `read_from_client` returns 0 only at the end of the stream (nothing
pending, or the empty chunk that stands for the peer closing). -/
theorem read_from_client_asks_room (MAXLINE : Nat) (c : ClientState) (s : Socket)
    (hwf : WellFormed MAXLINE c) (h2 : 2 ≤ MAXLINE) :
    1 ≤ (MAXLINE : Int) - (remove_buffered_line MAXLINE c).num_bytes - 1 ∧
    (∃ count : Nat, 1 ≤ count ∧
      (read_from_client MAXLINE c s).2.2.requests = s.requests ++
        [((remove_buffered_line MAXLINE c).num_bytes.toNat, count)] ∧
      (count : Int) = (MAXLINE : Int) - (remove_buffered_line MAXLINE c).num_bytes - 1) ∧
    ((read_from_client MAXLINE c s).1 = 0 →
      s.pending = [] ∨ ∃ rest, s.pending = .data [] :: rest) := by
  obtain ⟨hlen, h0, hlt⟩ := hwf
  have hnum := remove_buffered_line_num_bytes MAXLINE c ⟨hlen, h0, hlt⟩
  obtain ⟨⟨hlen1, h01, hlt1⟩, _⟩ :=
    remove_buffered_line_wellFormed MAXLINE c ⟨hlen, h0, hlt⟩
  have heq := read_from_client_eq MAXLINE c s
  generalize remove_buffered_line MAXLINE c = c1 at hnum hlen1 h01 hlt1 heq ⊢
  have hroom : 1 ≤ (MAXLINE : Int) - c1.num_bytes - 1 := by omega
  have hlog := sys_read_requests s c1.num_bytes.toNat
    ((MAXLINE : Int) - c1.num_bytes - 1).toNat
  have hnil := sys_read_nil s c1.num_bytes.toNat
    ((MAXLINE : Int) - c1.num_bytes - 1).toNat (by omega)
  generalize sys_read s c1.num_bytes.toNat
    ((MAXLINE : Int) - c1.num_bytes - 1).toNat = r at heq hlog hnil
  refine ⟨hroom, ⟨((MAXLINE : Int) - c1.num_bytes - 1).toNat, by omega, ?_, by omega⟩, ?_⟩
  · rw [heq]
    rcases hr : r.1 with d | _
    · exact hlog
    · exact hlog
  · intro hret
    rw [heq] at hret
    rcases hr : r.1 with d | _
    · rw [hr] at hret
      have hd : d = [] := by
        have : (d.length : Int) = 0 := hret
        exact List.length_eq_zero.1 (by omega)
      rw [hd] at hr
      exact hnil hr
    · rw [hr] at hret
      have : (-1 : Int) = 0 := hret
      omega

/-- C19 on a full-looking buffer of 8 bytes: 7 bytes buffered, no line, so
the buffer is cleared and the read asks for 7 bytes. -/
theorem read_from_client_asks_room_witness :
    1 ≤ ((8 : Nat) : Int) -
      (remove_buffered_line 8 ⟨[1, 2, 3, 4, 5, 6, 7, 0], 7, none⟩).num_bytes - 1 :=
  (read_from_client_asks_room 8 ⟨[1, 2, 3, 4, 5, 6, 7, 0], 7, none⟩ ⟨[], []⟩
    ⟨by decide, by decide, by decide⟩ (by decide)).1

end Request

namespace Request

/-! ## Scanning bytes in a buffer -/

/-- A scan that accepts every byte of `l₁` and refuses `x` stops at `x`. -/
theorem takeWhile_append_stop (p : Byte → Bool) (l₁ : List Byte) (x : Byte)
    (l₂ : List Byte) (h₁ : ∀ a ∈ l₁, p a = true) (hx : p x = false) :
    (l₁ ++ x :: l₂).takeWhile p = l₁ := by
  rw [List.takeWhile_append_of_pos h₁, List.takeWhile_cons_of_neg (by simp [hx]),
    List.append_nil]

/-- The byte at an offset past a prefix. -/
theorem byteAt_append_right (l₁ l₂ : List Byte) (i : Nat) :
    byteAt (l₁ ++ l₂) (l₁.length + i) = byteAt l₂ i := by
  unfold byteAt
  rw [List.getD_append_right _ _ _ _ (Nat.le_add_right _ _), Nat.add_sub_cancel_left]

/-- The byte that follows a prefix. -/
theorem byteAt_append_length (l₁ : List Byte) (x : Byte) (l₂ : List Byte) :
    byteAt (l₁ ++ x :: l₂) l₁.length = x := by
  have := byteAt_append_right l₁ (x :: l₂) 0
  rw [Nat.add_zero] at this
  rw [this]
  rfl

/-- The byte at an offset inside a prefix. -/
theorem byteAt_append_left (l₁ l₂ : List Byte) (i : Nat) (h : i < l₁.length) :
    byteAt (l₁ ++ l₂) i = byteAt l₁ i := by
  unfold byteAt
  exact List.getD_append _ _ _ _ h

/-- The string that starts after a prefix and runs up to a NUL. -/
theorem cstr_append_nul (pre t tail : List Byte) (ht : (0 : Byte) ∉ t) :
    cstr (pre ++ (t ++ 0 :: tail)) pre.length = t := by
  unfold cstr
  rw [List.drop_left]
  apply takeWhile_append_stop
  · intro a ha
    have : a ≠ 0 := fun e => ht (e ▸ ha)
    simp [this]
  · simp

/-- `strtok` on spaces, then a token without delimiter that a NUL ends: the
token starts after the spaces and the saved pointer stays on the NUL. -/
theorem strtok_token_then_nul (delim : List Byte) (pre t tail : List Byte)
    (hpre : ∀ a ∈ pre, a ≠ 0 ∧ a ∈ delim) (ht : ∀ a ∈ t, a ≠ 0 ∧ a ∉ delim)
    (hne : t ≠ []) :
    strtok (pre ++ (t ++ 0 :: tail)) 0 delim =
      (some pre.length, pre ++ (t ++ 0 :: tail), pre.length + t.length) := by
  obtain ⟨x, t', rfl⟩ := List.exists_cons_of_ne_nil hne
  have hx := ht x (by simp)
  have hspn : strspn (pre ++ (x :: t' ++ 0 :: tail)) 0 delim = pre.length := by
    unfold strspn
    rw [List.drop_zero, List.cons_append, takeWhile_append_stop]
    · intro a ha
      simp [hpre a ha]
    · simp [hx.2]
  have hcspn : strcspn (pre ++ (x :: t' ++ 0 :: tail)) pre.length delim
      = (x :: t').length := by
    unfold strcspn
    rw [List.drop_left, takeWhile_append_stop]
    · intro a ha
      simp [ht a ha]
    · simp
  have hb1 : byteAt (pre ++ (x :: t' ++ 0 :: tail)) pre.length ≠ 0 := by
    rw [List.cons_append, byteAt_append_length]
    exact hx.1
  have hb2 : byteAt (pre ++ (x :: t' ++ 0 :: tail)) (pre.length + (x :: t').length)
      = 0 := by
    rw [byteAt_append_right, byteAt_append_length]
  unfold strtok
  simp only [Nat.zero_add, hspn, if_neg hb1, hcspn, hb2, if_true]

/-- `strtok` started on a NUL gives no token. -/
theorem strtok_at_nul (delim : List Byte) (pre tail : List Byte) :
    strtok (pre ++ 0 :: tail) pre.length delim =
      (none, pre ++ 0 :: tail, pre.length) := by
  have hspn : strspn (pre ++ 0 :: tail) pre.length delim = 0 := by
    unfold strspn
    rw [List.drop_left, List.takeWhile_cons_of_neg (by simp)]
    rfl
  have hb : byteAt (pre ++ 0 :: tail) pre.length = 0 := byteAt_append_length _ _ _
  unfold strtok
  simp only [hspn, Nat.add_zero, hb, if_true]

end Request

namespace Request

/-! ## No `Malformed` result -/

/-- C11, as stated, fails: on `GET` followed directly by CR LF (and the
zero-filled rest of the array) `parse_req_start_line` does not return: it
ends the process with `exit(1)`. -/
theorem parse_req_start_line_exits_counterexample :
    (parse_req_start_line 5 ⟨[71, 69, 84, 13, 10, 0, 0, 0], 5, none⟩
        (some ⟨none, none, List.replicate 5 Fdata.absent⟩)).1 = .exited 1 ∧
    (parse_req_start_line 5 ⟨[32, 32, 32, 13, 10, 0, 0, 0], 5, none⟩
        (some ⟨none, none, List.replicate 5 Fdata.absent⟩)).1 = .exited 1 := by
  decide

/-- `parse_req_start_line` ends in one of three ways. -/
theorem parse_req_start_line_outcomes (MAX_QUERY_PARAMS : Nat) (c : ClientState)
    (alloc : Option ReqData) :
    (parse_req_start_line MAX_QUERY_PARAMS c alloc).1 = .returned 0 ∨
    (parse_req_start_line MAX_QUERY_PARAMS c alloc).1 = .returned 1 ∨
    (parse_req_start_line MAX_QUERY_PARAMS c alloc).1 = .exited 1 := by
  unfold parse_req_start_line
  dsimp only
  split
  · left; rfl
  · cases alloc with
    | none => right; right; rfl
    | some fresh =>
      dsimp only
      split
      · right; right; rfl
      · split
        · right; right; rfl
        · right; left; rfl

/-- C11, amended. `parse_req_start_line` has no `Malformed` result: it
returns 0, returns 1, or ends the process with `exit(1)`.  On a complete
line made of spaces and then a word without space or NUL (the word may be
empty) directly followed by CR LF, with the zero-filled array after it, no
path token is found and the process is ended with `exit(1)`. -/
theorem parse_req_start_line_exits (MAX_QUERY_PARAMS : Nat) (spaces : Nat)
    (w tail : List Byte) (fresh : ReqData) (req : Option ReqData)
    (hw : ∀ a ∈ w, a ≠ 0 ∧ a ≠ SPACE) :
    (∀ (c : ClientState) (alloc : Option ReqData),
      (parse_req_start_line MAX_QUERY_PARAMS c alloc).1 = .returned 0 ∨
      (parse_req_start_line MAX_QUERY_PARAMS c alloc).1 = .returned 1 ∨
      (parse_req_start_line MAX_QUERY_PARAMS c alloc).1 = .exited 1) ∧
    (parse_req_start_line MAX_QUERY_PARAMS
      ⟨List.replicate spaces SPACE ++ ((w ++ [CR, LF]) ++ 0 :: tail),
        (spaces : Int) + w.length + 2, req⟩ (some fresh)).1 = .exited 1 := by
  refine ⟨parse_req_start_line_outcomes MAX_QUERY_PARAMS, ?_⟩
  have hpre : ∀ a ∈ List.replicate spaces SPACE, a ≠ 0 ∧ a ∈ [SPACE] := by
    intro a ha
    rw [(List.mem_replicate.1 ha).2]
    decide
  have ht : ∀ a ∈ w ++ [CR, LF], a ≠ 0 ∧ a ∉ [SPACE] := by
    intro a ha
    rcases List.mem_append.1 ha with h | h
    · exact ⟨(hw a h).1, by simp [(hw a h).2]⟩
    · simp only [List.mem_cons, List.mem_singleton, List.not_mem_nil, or_false] at h
      rcases h with rfl | rfl <;> decide
  have t1 := strtok_token_then_nul [SPACE] (List.replicate spaces SPACE)
    (w ++ [CR, LF]) tail hpre ht (by simp)
  have t2 := strtok_at_nul [SPACE, QUESTION]
    (List.replicate spaces SPACE ++ (w ++ [CR, LF])) tail
  rw [List.append_assoc, List.length_append] at t2
  have hfind : find_network_newline
      (List.replicate spaces SPACE ++ ((w ++ [CR, LF]) ++ 0 :: tail))
      ((spaces : Int) + w.length + 2) ≠ -1 := by
    intro h
    refine (find_network_newline_eq_neg_one_iff _ _).1 h (spaces + w.length) ⟨?_, ?_, ?_⟩
    · push_cast; omega
    · have e : List.replicate spaces SPACE ++ ((w ++ [CR, LF]) ++ 0 :: tail)
          = (List.replicate spaces SPACE ++ w) ++ CR :: (LF :: 0 :: tail) := by simp
      have := byteAt_append_length (List.replicate spaces SPACE ++ w) CR (LF :: 0 :: tail)
      rw [e]
      simpa using this
    · have e : List.replicate spaces SPACE ++ ((w ++ [CR, LF]) ++ 0 :: tail)
          = (List.replicate spaces SPACE ++ (w ++ [CR])) ++ LF :: (0 :: tail) := by simp
      have := byteAt_append_length (List.replicate spaces SPACE ++ (w ++ [CR])) LF
        (0 :: tail)
      rw [e]
      simpa [Nat.add_assoc] using this
  unfold parse_req_start_line
  dsimp only
  rw [if_neg hfind]
  simp only [t1, t2]

/-- C11, amended, on three spaces followed by CR LF. -/
theorem parse_req_start_line_exits_witness :
    (parse_req_start_line 5
      ⟨[32, 32, 32, 13, 10, 0, 0, 0], 5, none⟩
      (some ⟨none, none, List.replicate 5 Fdata.absent⟩)).1 = .exited 1 :=
  (parse_req_start_line_exits 5 3 [] [0, 0] ⟨none, none, List.replicate 5 Fdata.absent⟩
    none (by intro a ha; cases ha)).2

end Request

namespace Request

/-! ## Slots left as `malloc` gave them -/

/-- The closing loop of `parse_req_start_line` leaves alone every slot that
has a name, and every slot that is already absent. -/
theorem getElem?_init_params_loop :
    ∀ (n i : Nat) (params : List Fdata) (j : Nat) (slot : Fdata),
      params[j]? = some slot → (slot.name = none → slot = Fdata.absent) →
      (init_params_loop n i params)[j]? = some slot := by
  intro n
  induction n with
  | zero => intro i params j slot h _; exact h
  | succ n ih =>
    intro i params j slot h hfix
    rw [init_params_loop]
    rcases hget : params[i]? with _ | s
    · exact ih (i + 1) params j slot h hfix
    · by_cases hname : s.name = none
      · simp only [if_pos hname]
        apply ih (i + 1) _ j slot _ hfix
        rw [List.getElem?_set]
        by_cases hij : i = j
        · subst hij
          have hs : s = slot := by
            rw [hget] at h; exact Option.some.inj h
          have hlt : i < params.length := by
            rcases Nat.lt_or_ge i params.length with l | g
            · exact l
            · rw [List.getElem?_eq_none g] at hget; cases hget
          rw [if_pos rfl, if_pos hlt, hfix (hs ▸ hname)]
        · rw [if_neg hij]; exact h
      · simp only [if_neg hname]
        exact ih (i + 1) params j slot h hfix

/-- What `parse_req_start_line` does on a request line without query
segment: the third token is `HTTP/1.1` and its CR LF, `parse_query` finds no
`'='` in it and returns at once, and the slots are those of the fresh
record after the closing loop. -/
theorem parse_req_start_line_plain (MAX_QUERY_PARAMS : Nat) (tail : List Byte)
    (fresh : ReqData) :
    parse_req_start_line MAX_QUERY_PARAMS ⟨plainRequestLine ++ 0 :: tail, 26, none⟩
        (some fresh) =
      (.returned 1,
        ⟨[71, 69, 84, 0, 47, 105, 110, 100, 101, 120, 46, 104, 116, 109, 108, 0,
            72, 84, 84, 80, 47, 49, 46, 49, 13, 10] ++ 0 :: tail,
          26,
          some ⟨some [71, 69, 84],
            some [47, 105, 110, 100, 101, 120, 46, 104, 116, 109, 108],
            init_params_loop MAX_QUERY_PARAMS 0 fresh.params⟩⟩) := by
  have hfind : find_network_newline (plainRequestLine ++ 0 :: tail) 26 ≠ -1 := by
    have : find_network_newline (plainRequestLine ++ 0 :: tail) 26 = 26 := rfl
    rw [this]; omega
  have t1 : strtok (plainRequestLine ++ 0 :: tail) 0 [SPACE] =
      (some 0,
        [71, 69, 84, 0, 47, 105, 110, 100, 101, 120, 46, 104, 116, 109, 108, 32,
          72, 84, 84, 80, 47, 49, 46, 49, 13, 10] ++ 0 :: tail, 4) := rfl
  have c1 : cstr ([71, 69, 84, 0, 47, 105, 110, 100, 101, 120, 46, 104, 116, 109, 108,
      32, 72, 84, 84, 80, 47, 49, 46, 49, 13, 10] ++ 0 :: tail) 0 = [71, 69, 84] := rfl
  have t2 : strtok ([71, 69, 84, 0, 47, 105, 110, 100, 101, 120, 46, 104, 116, 109, 108,
      32, 72, 84, 84, 80, 47, 49, 46, 49, 13, 10] ++ 0 :: tail) 4 [SPACE, QUESTION] =
      (some 4,
        [71, 69, 84, 0, 47, 105, 110, 100, 101, 120, 46, 104, 116, 109, 108, 0,
          72, 84, 84, 80, 47, 49, 46, 49, 13, 10] ++ 0 :: tail, 16) := rfl
  have c2 : cstr ([71, 69, 84, 0, 47, 105, 110, 100, 101, 120, 46, 104, 116, 109, 108,
      0, 72, 84, 84, 80, 47, 49, 46, 49, 13, 10] ++ 0 :: tail) 4
      = [47, 105, 110, 100, 101, 120, 46, 104, 116, 109, 108] := rfl
  have t3 : strtok ([71, 69, 84, 0, 47, 105, 110, 100, 101, 120, 46, 104, 116, 109, 108,
      0, 72, 84, 84, 80, 47, 49, 46, 49, 13, 10] ++ 0 :: tail) 16 [SPACE] =
      (some 16,
        [71, 69, 84, 0, 47, 105, 110, 100, 101, 120, 46, 104, 116, 109, 108, 0,
          72, 84, 84, 80, 47, 49, 46, 49, 13, 10] ++ 0 :: tail, 26) := rfl
  have c3 : cstr ([71, 69, 84, 0, 47, 105, 110, 100, 101, 120, 46, 104, 116, 109, 108,
      0, 72, 84, 84, 80, 47, 49, 46, 49, 13, 10] ++ 0 :: tail) 16
      = [72, 84, 84, 80, 47, 49, 46, 49, 13, 10] := rfl
  have hq : ∀ r : ReqData,
      parse_query MAX_QUERY_PARAMS r (some [72, 84, 84, 80, 47, 49, 46, 49, 13, 10])
        = r := fun _ => rfl
  unfold parse_req_start_line
  dsimp only
  rw [if_neg hfind]
  simp only [t1]
  simp only [c1, t2]
  simp only [c2, t3]
  simp only [c3, hq]

/-- C17 fails on the code. On the request line `GET /index.html HTTP/1.1`
(no query segment), with a fresh record whose first slot is absent and whose
second slot holds leftover pointers, `parse_req_start_line` returns 1 and
the record keeps both slots: slot 0 absent, slot 1 populated.  No `k` splits
the slots into populated ones followed by absent ones. -/
theorem parse_req_start_line_leftover_slots (MAX_QUERY_PARAMS : Nat)
    (tail : List Byte) (fresh : ReqData) (a b : List Byte) (rest : List Fdata)
    (hp : fresh.params = Fdata.absent :: ⟨some a, some b⟩ :: rest)
    (hlen : fresh.params.length = MAX_QUERY_PARAMS) :
    ∃ (buf : List Byte) (r : ReqData),
      parse_req_start_line MAX_QUERY_PARAMS ⟨plainRequestLine ++ 0 :: tail, 26, none⟩
        (some fresh) = (.returned 1, ⟨buf, 26, some r⟩) ∧
      r.params[0]? = some Fdata.absent ∧
      r.params[1]? = some ⟨some a, some b⟩ ∧
      ¬ ∃ k, k ≤ MAX_QUERY_PARAMS ∧
        (∀ i, i < k → ∃ n v, r.params[i]? = some ⟨some n, some v⟩) ∧
        (∀ i, k ≤ i → i < MAX_QUERY_PARAMS → r.params[i]? = some Fdata.absent) := by
  have h0 : (init_params_loop MAX_QUERY_PARAMS 0 fresh.params)[0]? = some Fdata.absent :=
    getElem?_init_params_loop _ _ _ 0 _ (by rw [hp]; simp) (fun _ => rfl)
  have h1 : (init_params_loop MAX_QUERY_PARAMS 0 fresh.params)[1]?
      = some ⟨some a, some b⟩ :=
    getElem?_init_params_loop _ _ _ 1 _ (by rw [hp]; simp) (fun h => by cases h)
  have hM : 2 ≤ MAX_QUERY_PARAMS := by
    rw [← hlen, hp]; simp
  refine ⟨_, _, parse_req_start_line_plain MAX_QUERY_PARAMS tail fresh, h0, h1, ?_⟩
  rintro ⟨k, _, hpop, habs⟩
  rcases Nat.eq_zero_or_pos k with hk | hk
  · have := habs 1 (by omega) (by omega)
    rw [h1] at this
    cases this
  · obtain ⟨n, v, hnv⟩ := hpop 0 hk
    rw [h0] at hnv
    cases hnv

/-- C17's failure with three slots. -/
theorem parse_req_start_line_leftover_slots_witness :
    ∃ (buf : List Byte) (r : ReqData),
      parse_req_start_line 3 ⟨plainRequestLine ++ 0 :: [0, 0, 0], 26, none⟩
        (some ⟨none, none, [Fdata.absent, ⟨some [120], some [121]⟩, Fdata.absent]⟩)
        = (.returned 1, ⟨buf, 26, some r⟩) ∧
      r.params[0]? = some Fdata.absent ∧
      r.params[1]? = some ⟨some [120], some [121]⟩ ∧
      ¬ ∃ k, k ≤ 3 ∧
        (∀ i, i < k → ∃ n v, r.params[i]? = some ⟨some n, some v⟩) ∧
        (∀ i, k ≤ i → i < 3 → r.params[i]? = some Fdata.absent) :=
  parse_req_start_line_leftover_slots 3 [0, 0, 0]
    ⟨none, none, [Fdata.absent, ⟨some [120], some [121]⟩, Fdata.absent]⟩
    [120] [121] [Fdata.absent] rfl rfl

end Request

namespace Request

/-! ## Complete lines at the start of the buffer -/

/-- Bytes without LF followed by CR LF are one complete line. -/
theorem isLine_of_no_lf (body : List Byte) (h : LF ∉ body) :
    IsLine (body ++ [CR, LF]) := by
  refine ⟨body, rfl, ?_⟩
  intro k hk
  obtain ⟨h1, _, h3⟩ := hk
  have h1' : (k : Int) + 1 < (body.length : Int) + 1 := h1
  rcases Nat.lt_or_ge (k + 1) body.length with hk1 | hk1
  · rw [byteAt_append_left _ _ _ hk1] at h3
    unfold byteAt at h3
    rw [List.getD_eq_getElem _ _ hk1] at h3
    exact h (h3 ▸ List.getElem_mem _)
  · have hk2 : k + 1 = body.length := by omega
    rw [hk2, byteAt_append_length] at h3
    exact absurd h3 (by decide)

/-- The length of a complete line, as an `Int`, is at least 2. -/
theorem isLine_length (l : List Byte) (h : IsLine l) : 2 ≤ l.length := by
  obtain ⟨body, rfl, _⟩ := h
  simp

/-- The scan of a buffer that starts with a complete line, all of it among
the buffered bytes, returns the length of the line. -/
theorem find_network_newline_line (l rest : List Byte) (n : Int) (hl : IsLine l)
    (hn : (l.length : Int) ≤ n) :
    find_network_newline (l ++ rest) n = (l.length : Int) := by
  obtain ⟨body, rfl, hno⟩ := hl
  have hlen : (body ++ [CR, LF]).length = body.length + 2 := by simp
  rw [hlen] at hn ⊢
  have e1 : body ++ [CR, LF] ++ rest = body ++ CR :: (LF :: rest) := by simp
  have e2 : body ++ [CR, LF] ++ rest = (body ++ [CR]) ++ LF :: rest := by simp
  have hfirst := find_network_newline_of_first (body ++ [CR, LF] ++ rest) n body.length
    ⟨by omega, by rw [e1]; exact byteAt_append_length _ _ _,
      by
        rw [e2]
        have := byteAt_append_length (body ++ [CR]) LF rest
        simpa using this⟩
    (by
      intro j hj hc
      apply hno j
      obtain ⟨_, c2, c3⟩ := hc
      rw [e2] at c2 c3
      rw [byteAt_append_left _ _ _ (by simp; omega)] at c2 c3
      exact ⟨by omega, c2, c3⟩)
  rw [hfirst]
  push_cast
  ring

/-- `remove_buffered_line` on a buffer that starts with a complete line
followed by the bytes `X`, all buffered: the buffer then starts with `X`,
and `num_bytes` has dropped by the length of the line. -/
theorem remove_buffered_line_line (MAXLINE : Nat) (c : ClientState)
    (l X tail : List Byte) (hwf : WellFormed MAXLINE c)
    (hbuf : c.buf = l ++ (X ++ tail)) (hl : IsLine l)
    (hn : (l.length : Int) + X.length ≤ c.num_bytes) :
    ∃ tail', (remove_buffered_line MAXLINE c).buf = X ++ tail' ∧
      (remove_buffered_line MAXLINE c).num_bytes = c.num_bytes - l.length ∧
      WellFormed MAXLINE (remove_buffered_line MAXLINE c) := by
  have hfind : find_network_newline c.buf c.num_bytes = (l.length : Int) := by
    rw [hbuf]
    exact find_network_newline_line l (X ++ tail) c.num_bytes hl (by omega)
  have hwf' := (remove_buffered_line_wellFormed MAXLINE c hwf).1
  rw [remove_buffered_line_of_found MAXLINE c hwf l.length hfind] at hwf' ⊢
  refine ⟨tail.take (c.num_bytes.toNat - l.length - X.length) ++
    List.replicate (MAXLINE - (c.num_bytes.toNat - l.length)) 0, ?_, rfl, hwf'⟩
  show List.take (c.num_bytes.toNat - l.length) (List.drop l.length c.buf) ++
      List.replicate (MAXLINE - (c.num_bytes.toNat - l.length)) 0 = _
  rw [hbuf, List.drop_left, List.take_append_eq_append_take,
    List.take_of_length_le (by omega), List.append_assoc]

/-- One iteration of the loop of `get_boundary` on the header line: the
token is built and returned, with no read. -/
theorem get_boundary_loop_found (H : List Byte) (MAXLINE fuel : Nat) (c : ClientState)
    (s : Socket) (seen : List (List Byte)) (wh : Nat)
    (hw : find_network_newline c.buf c.num_bytes = (wh : Int)) (h : 0 < wh)
    (hlen : H.length ≤ wh) (hpre : c.buf.take H.length = H) :
    get_boundary_loop H MAXLINE (fuel + 1) c s seen =
      some (some (boundary_of c.buf H.length wh), c, s, seen ++ [c.buf.take wh]) := by
  have h1 : (0 : Int) < (wh : Int) := by exact_mod_cast h
  have h2 : ¬ ((wh : Int) < (H.length : Int) ∨ c.buf.take H.length ≠ H) := by
    rintro (l | r)
    · omega
    · exact r hpre
  simp only [get_boundary_loop, hw, if_pos h1, if_neg h2, Int.toNat_ofNat]

/-- The token built from a header line `H ++ T ++ CR LF`: two dashes and
`T`. -/
theorem boundary_of_header (H T tail : List Byte) (hT : (0 : Byte) ∉ T) :
    boundary_of (H ++ (T ++ [CR, LF]) ++ tail) H.length
      ((H ++ (T ++ [CR, LF])).length : Int) = DASH :: DASH :: T := by
  have hc : (cstr (H ++ (T ++ [CR, LF]) ++ tail) H.length).take (T.length + 1)
      = T ++ [CR] := by
    unfold cstr
    have e : H ++ (T ++ [CR, LF]) ++ tail = H ++ ((T ++ [CR]) ++ LF :: tail) := by simp
    rw [e, List.drop_left, List.takeWhile_append_of_pos, List.take_append_eq_append_take,
      List.take_of_length_le (by simp)]
    · have : T.length + 1 - (T ++ [CR]).length = 0 := by simp
      rw [this, List.take_zero, List.append_nil]
    · intro a ha
      rcases List.mem_append.1 ha with h | h
      · have : a ≠ 0 := fun e => hT (e ▸ h)
        simp [this]
      · rw [List.mem_singleton.1 h]; decide
  have e1 : (((H ++ (T ++ [CR, LF])).length : Int) - (H.length : Int) - 1).toNat
      = T.length + 1 := by
    simp only [List.length_append, List.length_cons, List.length_nil]
    omega
  have e2 : (((H ++ (T ++ [CR, LF])).length : Int) - (H.length : Int)).toNat
      = T.length + 2 := by
    simp only [List.length_append, List.length_cons, List.length_nil]
    omega
  unfold boundary_of
  rw [e1, e2, hc]
  have e3 : [DASH, DASH] ++ (T ++ [CR]) = (DASH :: DASH :: T) ++ [CR] := by simp
  rw [e3, List.take_append_eq_append_take, List.take_of_length_le (by simp)]
  have : T.length + 2 - (DASH :: DASH :: T).length = 0 := by simp
  rw [this, List.take_zero, List.append_nil]

end Request

namespace Request

/-! ## `get_boundary` on buffered lines -/

/-- The loop of `get_boundary` on a buffer that holds lines not starting
with the header, then the header line: the lines are removed one by one,
the token is returned, and the socket is not touched. -/
theorem get_boundary_loop_lines (H T : List Byte) (MAXLINE : Nat)
    (hhdr : IsLine (H ++ (T ++ [CR, LF]))) (hT0 : (0 : Byte) ∉ T) :
    ∀ (ls : List (List Byte)) (extra : Nat) (c : ClientState) (s : Socket)
      (seen : List (List Byte)) (tail : List Byte),
      WellFormed MAXLINE c →
      c.buf = joinLines ls ++ ((H ++ (T ++ [CR, LF])) ++ tail) →
      ((joinLines ls).length : Int) + (H ++ (T ++ [CR, LF])).length ≤ c.num_bytes →
      (∀ l ∈ ls, IsLine l ∧ ¬ H <+: l) →
      ∃ c', get_boundary_loop H MAXLINE (ls.length + 1 + extra) c s seen =
        some (some (DASH :: DASH :: T), c', s, seen ++ ls ++ [H ++ (T ++ [CR, LF])]) := by
  intro ls
  induction ls with
  | nil =>
    intro extra c s seen tail hwf hbuf hn _
    have hbuf' : c.buf = (H ++ (T ++ [CR, LF])) ++ tail := by
      rw [hbuf]; rfl
    have hn' : ((H ++ (T ++ [CR, LF])).length : Int) ≤ c.num_bytes := by
      have : ((joinLines ([] : List (List Byte))).length : Int) = 0 := rfl
      omega
    have hfind : find_network_newline c.buf c.num_bytes
        = ((H ++ (T ++ [CR, LF])).length : Int) := by
      rw [hbuf']
      exact find_network_newline_line _ tail c.num_bytes hhdr hn'
    have hpre : c.buf.take H.length = H := by
      rw [hbuf', List.append_assoc, List.take_left]
    have htake : c.buf.take (H ++ (T ++ [CR, LF])).length = H ++ (T ++ [CR, LF]) := by
      rw [hbuf', List.take_left]
    refine ⟨c, ?_⟩
    have e : ([] : List (List Byte)).length + 1 + extra = extra + 1 := by
      simp only [List.length_nil]; omega
    rw [e, get_boundary_loop_found H MAXLINE extra c s seen _ hfind
      (by simp) (by simp) hpre, htake]
    have hb : boundary_of c.buf H.length ((H ++ (T ++ [CR, LF])).length : ℕ)
        = DASH :: DASH :: T := by
      rw [hbuf']
      exact boundary_of_header H T tail hT0
    rw [hb, List.append_nil]
  | cons l ls ih =>
    intro extra c s seen tail hwf hbuf hn hls
    obtain ⟨hl, hnp⟩ := hls l (by simp)
    have hbuf' : c.buf = l ++ ((joinLines ls ++ (H ++ (T ++ [CR, LF]))) ++ tail) := by
      rw [hbuf]; simp [joinLines]
    have hjl : ((joinLines (l :: ls)).length : Int)
        = (l.length : Int) + (joinLines ls).length := by
      simp [joinLines]
    have hfind : find_network_newline c.buf c.num_bytes = (l.length : Int) := by
      rw [hbuf']
      exact find_network_newline_line l _ c.num_bytes hl (by omega)
    have hskip : l.length < H.length ∨ c.buf.take H.length ≠ H := by
      rcases Nat.lt_or_ge l.length H.length with h | h
      · left; exact h
      · right
        intro e
        apply hnp
        rw [hbuf', List.take_append_of_le_length h] at e
        rw [← e]
        exact List.take_prefix _ _
    have htake : c.buf.take l.length = l := by
      rw [hbuf', List.take_left]
    obtain ⟨tail', hb1, hn1, hwf1⟩ := remove_buffered_line_line MAXLINE c l
      (joinLines ls ++ (H ++ (T ++ [CR, LF]))) tail hwf hbuf' hl
      (by rw [List.length_append]; push_cast; omega)
    have e : (l :: ls).length + 1 + extra = (ls.length + 1 + extra) + 1 := by
      simp only [List.length_cons]; omega
    rw [e, get_boundary_loop_skip H MAXLINE _ c s seen l.length hfind
      (by have := isLine_length l hl; omega) hskip, htake]
    obtain ⟨c', hc'⟩ := ih extra (remove_buffered_line MAXLINE c) s (seen ++ [l]) tail'
      hwf1 (by rw [hb1, List.append_assoc]) (by rw [hn1]; omega)
      (fun x hx => hls x (by simp [hx]))
    refine ⟨c', ?_⟩
    rw [hc']
    simp

/-- C12. When the buffer holds zero or more complete lines that do not
start with the header `H`, then the complete line `H ++ T ++ CR LF` (`T`
without NUL), `get_boundary` makes no read and returns `"--" ++ T`. -/
theorem get_boundary_finds_header (H T : List Byte) (MAXLINE : Nat)
    (ls : List (List Byte)) (extra : Nat) (c : ClientState) (s : Socket)
    (tail : List Byte) (hhdr : IsLine (H ++ (T ++ [CR, LF])))
    (hT0 : (0 : Byte) ∉ T) (hwf : WellFormed MAXLINE c)
    (hbuf : c.buf = joinLines ls ++ ((H ++ (T ++ [CR, LF])) ++ tail))
    (hn : ((joinLines ls).length : Int) + (H ++ (T ++ [CR, LF])).length ≤ c.num_bytes)
    (hls : ∀ l ∈ ls, IsLine l ∧ ¬ H <+: l) :
    ∃ c', get_boundary H MAXLINE (ls.length + 1 + extra) c s =
      some (some (DASH :: DASH :: T), c', s, ls ++ [H ++ (T ++ [CR, LF])]) := by
  obtain ⟨c', hc'⟩ := get_boundary_loop_lines H T MAXLINE hhdr hT0 ls extra c s []
    tail hwf hbuf hn hls
  exact ⟨c', by unfold get_boundary; rw [hc']; simp⟩

/-- C12 with the header `b=`, the line `"x\r\n"` before the header line
`"b=tok\r\n"`, in an array of 16 bytes. -/
theorem get_boundary_finds_header_witness :
    ∃ c', get_boundary [98, 61] 16 ([[120, 13, 10]].length + 1 + 0)
      ⟨[120, 13, 10, 98, 61, 116, 111, 107, 13, 10, 0, 0, 0, 0, 0, 0], 10, none⟩
      ⟨[.data [1]], []⟩ =
      some (some (DASH :: DASH :: [116, 111, 107]), c', ⟨[.data [1]], []⟩,
        [[120, 13, 10]] ++ [[98, 61] ++ ([116, 111, 107] ++ [CR, LF])]) :=
  get_boundary_finds_header [98, 61] [116, 111, 107] 16 [[120, 13, 10]] 0
    ⟨[120, 13, 10, 98, 61, 116, 111, 107, 13, 10, 0, 0, 0, 0, 0, 0], 10, none⟩
    ⟨[.data [1]], []⟩ [0, 0, 0, 0, 0, 0]
    (isLine_of_no_lf [98, 61, 116, 111, 107] (by decide)) (by decide)
    ⟨by decide, by decide, by decide⟩ rfl (by decide)
    (by
      intro l hl
      rw [List.mem_singleton.1 hl]
      exact ⟨isLine_of_no_lf [120] (by decide), by decide⟩)

end Request

namespace Request

/-! ## Termination of `get_boundary` -/

/-- A read that delivers bytes takes them off what is pending. -/
theorem sys_read_pendingBytes (s : Socket) (off count : Nat) (d : List Byte)
    (h : (sys_read s off count).1 = .bytes d) :
    pendingBytes (sys_read s off count).2.pending + d.length = pendingBytes s.pending ∨
    d = [] := by
  unfold sys_read at h ⊢
  rcases hs : s.pending with _ | ⟨e, rest⟩
  · simp only [hs] at h
    injection h with h
    right; exact h.symm
  · cases e with
    | failure => simp [hs] at h
    | data b =>
      simp only [hs] at h ⊢
      by_cases hb : b.length ≤ count
      · rw [if_pos hb] at h ⊢
        injection h with h
        subst h
        left
        simp only [pendingBytes]
        omega
      · rw [if_neg hb] at h ⊢
        injection h with h
        subst h
        left
        simp only [pendingBytes, List.length_take, List.length_drop]
        omega

/-- `read_from_client` that returns a positive count has taken at least one
byte off the socket. -/
theorem read_from_client_progress (MAXLINE : Nat) (c : ClientState) (s : Socket)
    (h : ¬ (read_from_client MAXLINE c s).1 ≤ 0) :
    pendingBytes (read_from_client MAXLINE c s).2.2.pending + 1
      ≤ pendingBytes s.pending := by
  have heq := read_from_client_eq MAXLINE c s
  generalize remove_buffered_line MAXLINE c = c1 at heq
  have hp := sys_read_pendingBytes s c1.num_bytes.toNat
    ((MAXLINE : Int) - c1.num_bytes - 1).toNat
  generalize sys_read s c1.num_bytes.toNat
    ((MAXLINE : Int) - c1.num_bytes - 1).toNat = r at heq hp
  rw [heq] at h ⊢
  rcases hr : r.1 with d | _
  · simp only [hr] at h ⊢
    have hd : ¬ ((d.length : Int) ≤ 0) := h
    rcases hp d hr with hp | hp
    · show pendingBytes r.2.pending + 1 ≤ pendingBytes s.pending
      omega
    · rw [hp] at hd
      exact absurd (le_refl (0 : Int)) hd
  · simp only [hr] at h
    exact absurd (by decide : (-1 : Int) ≤ 0) h

/-- More fuel does not change a result already reached. -/
theorem get_boundary_loop_mono (H : List Byte) (MAXLINE : Nat) :
    ∀ (n : Nat) (c : ClientState) (s : Socket) (seen : List (List Byte))
      (r : Option (List Byte) × ClientState × Socket × List (List Byte)),
      get_boundary_loop H MAXLINE n c s seen = some r →
      get_boundary_loop H MAXLINE (n + 1) c s seen = some r := by
  intro n
  induction n with
  | zero => intro c s seen r h; simp [get_boundary_loop] at h
  | succ n ih =>
    intro c s seen r h
    rw [get_boundary_loop] at h ⊢
    dsimp only at h ⊢
    split
    · rename_i hpos
      rw [if_pos hpos] at h
      split
      · rename_i hskip
        rw [if_pos hskip] at h
        exact ih _ _ _ _ h
      · rename_i hskip
        rw [if_neg hskip] at h
        exact h
    · rename_i hpos
      rw [if_neg hpos] at h
      split
      · rename_i hret
        rw [if_pos hret] at h
        exact h
      · rename_i hret
        rw [if_neg hret] at h
        exact ih _ _ _ _ h

/-- More fuel, by any amount, does not change a result already reached. -/
theorem get_boundary_loop_mono_le (H : List Byte) (MAXLINE : Nat) (n m : Nat)
    (c : ClientState) (s : Socket) (seen : List (List Byte))
    (r : Option (List Byte) × ClientState × Socket × List (List Byte))
    (h : get_boundary_loop H MAXLINE n c s seen = some r) (hnm : n ≤ m) :
    get_boundary_loop H MAXLINE m c s seen = some r := by
  induction m with
  | zero =>
    have : n = 0 := by omega
    rw [this] at h; exact h
  | succ m ih =>
    rcases Nat.eq_or_lt_of_le hnm with e | l
    · rw [← e]; exact h
    · exact get_boundary_loop_mono H MAXLINE m c s seen r (ih (by omega))

/-- The loop of `get_boundary` returns within
`MAXLINE * (bytes pending) + num_bytes + 1` iterations. -/
theorem get_boundary_loop_returns (H : List Byte) (MAXLINE : Nat) :
    ∀ (n : Nat) (c : ClientState) (s : Socket) (seen : List (List Byte)),
      WellFormed MAXLINE c →
      MAXLINE * pendingBytes s.pending + c.num_bytes.toNat < n →
      ∃ r, get_boundary_loop H MAXLINE n c s seen = some r := by
  intro n
  induction n with
  | zero => intro c s seen _ h; omega
  | succ n ih =>
    intro c s seen hwf hμ
    rw [get_boundary_loop]
    dsimp only
    split
    · rename_i hpos
      split
      · have hnum := remove_buffered_line_num_bytes MAXLINE c hwf
        have hwf1 := (remove_buffered_line_wellFormed MAXLINE c hwf).1
        obtain ⟨_, h0, _⟩ := hwf
        obtain ⟨_, h01, _⟩ := hwf1
        have hdec : (remove_buffered_line MAXLINE c).num_bytes.toNat < c.num_bytes.toNat := by
          rcases hnum with e | l
          · have hne : c.num_bytes ≠ 0 := by
              intro e0
              rw [e0] at hpos
              have hm : find_network_newline c.buf 0 = -1 := rfl
              rw [hm] at hpos
              omega
            omega
          · omega
        exact ih _ s _ (remove_buffered_line_wellFormed MAXLINE c ⟨‹_›, h0, ‹_›⟩).1
          (by omega)
      · exact ⟨_, rfl⟩
    · split
      · exact ⟨_, rfl⟩
      · rename_i hret
        have hprog := read_from_client_progress MAXLINE c s hret
        have hwf2 := read_from_client_wellFormed MAXLINE c s hwf
        obtain ⟨_, h02, hlt2⟩ := hwf2
        apply ih _ _ _ (read_from_client_wellFormed MAXLINE c s hwf)
        have hlt2' : (read_from_client MAXLINE c s).2.1.num_bytes.toNat < MAXLINE := by
          omega
        calc MAXLINE * pendingBytes (read_from_client MAXLINE c s).2.2.pending
              + (read_from_client MAXLINE c s).2.1.num_bytes.toNat
            < MAXLINE * pendingBytes (read_from_client MAXLINE c s).2.2.pending
              + MAXLINE := by omega
          _ = MAXLINE * (pendingBytes (read_from_client MAXLINE c s).2.2.pending + 1) := by
              ring
          _ ≤ MAXLINE * pendingBytes s.pending := Nat.mul_le_mul_left _ hprog
          _ ≤ n := by omega

/-- Removing a line that the scan found takes at least two bytes off the
buffer. -/
theorem remove_buffered_line_of_pos (MAXLINE : Nat) (c : ClientState)
    (hwf : WellFormed MAXLINE c) (hpos : 0 < find_network_newline c.buf c.num_bytes) :
    (remove_buffered_line MAXLINE c).num_bytes + 2 ≤ c.num_bytes := by
  rcases find_network_newline_cases c.buf c.num_bytes with ⟨k, h1, _, h3⟩ | ⟨_, h2⟩
  · have h3' : find_network_newline c.buf c.num_bytes = ((k + 2 : Nat) : Int) := by
      rw [h3]; push_cast; ring
    rw [remove_buffered_line_of_found MAXLINE c hwf (k + 2) h3']
    show c.num_bytes - ((k + 2 : Nat) : Int) + 2 ≤ c.num_bytes
    omega
  · rw [h2] at hpos
    omega

/-- C20. From every state with `0 ≤ num_bytes < MAXLINE` and every socket
(finitely many chunks, then the end of the stream), `get_boundary` returns,
a token or `NULL`: with `MAXLINE * (bytes pending) + num_bytes + 1`
iterations or more it gives one and the same result.  An iteration that
removes a line takes at least two bytes off the buffer, and a read after
which the loop goes on has taken at least one byte off the socket. -/
theorem get_boundary_terminates (H : List Byte) (MAXLINE : Nat) (c : ClientState)
    (s : Socket) (hwf : WellFormed MAXLINE c) :
    (∃ r, ∀ fuel, MAXLINE * pendingBytes s.pending + c.num_bytes.toNat + 1 ≤ fuel →
      get_boundary H MAXLINE fuel c s = some r) ∧
    (0 < find_network_newline c.buf c.num_bytes →
      (remove_buffered_line MAXLINE c).num_bytes + 2 ≤ c.num_bytes) ∧
    (¬ (read_from_client MAXLINE c s).1 ≤ 0 →
      pendingBytes (read_from_client MAXLINE c s).2.2.pending + 1
        ≤ pendingBytes s.pending) := by
  obtain ⟨r, hr⟩ := get_boundary_loop_returns H MAXLINE
    (MAXLINE * pendingBytes s.pending + c.num_bytes.toNat + 1) c s [] hwf (by omega)
  exact ⟨⟨r, fun fuel hf => get_boundary_loop_mono_le H MAXLINE _ fuel c s [] r hr hf⟩,
    remove_buffered_line_of_pos MAXLINE c hwf,
    read_from_client_progress MAXLINE c s⟩

/-- C20 from an empty buffer of 8 bytes and the stream `"a"`, `"b\r\n"`. -/
theorem get_boundary_terminates_witness :
    ∃ r, ∀ fuel, 8 * pendingBytes [.data [97], .data [98, 13, 10]] +
        (0 : Int).toNat + 1 ≤ fuel →
      get_boundary [98, 61] 8 fuel ⟨List.replicate 8 0, 0, none⟩
        ⟨[.data [97], .data [98, 13, 10]], []⟩ = some r :=
  (get_boundary_terminates [98, 61] 8 ⟨List.replicate 8 0, 0, none⟩
    ⟨[.data [97], .data [98, 13, 10]], []⟩ ⟨by decide, by decide, by decide⟩).1

end Request

namespace Request

/-! ## `get_bitmap_filename` -/

/-- `remove_buffered_line` on a buffer that holds exactly a complete line
and the bytes `X`: `X` is left, followed by zeros. -/
theorem remove_buffered_line_exact (MAXLINE : Nat) (c : ClientState)
    (l X junk : List Byte) (hwf : WellFormed MAXLINE c)
    (hbuf : c.buf = l ++ (X ++ junk)) (hl : IsLine l)
    (hn : c.num_bytes = (l.length : Int) + X.length) :
    remove_buffered_line MAXLINE c =
      { c with buf := X ++ List.replicate (MAXLINE - X.length) 0
               num_bytes := (X.length : Int) } := by
  have hfind : find_network_newline c.buf c.num_bytes = (l.length : Int) := by
    rw [hbuf]
    exact find_network_newline_line l (X ++ junk) c.num_bytes hl (by omega)
  rw [remove_buffered_line_of_found MAXLINE c hwf l.length hfind]
  have e1 : c.num_bytes.toNat - l.length = X.length := by omega
  have e2 : c.num_bytes - (l.length : Int) = (X.length : Int) := by omega
  rw [e1, e2, hbuf, List.drop_left, List.take_left]

/-- `strrchr` returns `NULL` on a string without the byte. -/
theorem strrchr_of_not_mem (a : List Byte) (c : Byte) (h : c ∉ a) :
    strrchr a c = none := by
  induction a with
  | nil => rfl
  | cons x xs ih =>
    have hx : x ≠ c := fun e => h (by simp [e])
    have hxs : c ∉ xs := fun e => h (by simp [e])
    simp [strrchr, ih hxs, hx]

/-- `strrchr` finds the byte that no later byte repeats. -/
theorem strrchr_append_cons (a b : List Byte) (c : Byte) (h : c ∉ b) :
    strrchr (a ++ c :: b) c = some a.length := by
  induction a with
  | nil => simp [strrchr, strrchr_of_not_mem b c h]
  | cons x xs ih => simp [strrchr, ih]

/-- Storing a byte right after a prefix. -/
theorem set_append_length (l₁ : List Byte) (x y : Byte) (l₂ : List Byte) :
    (l₁ ++ x :: l₂).set l₁.length y = l₁ ++ y :: l₂ := by
  induction l₁ with
  | nil => rfl
  | cons a as ih => simp [List.set, ih]

/-- One iteration of the loop of `get_bitmap_filename` on the boundary
line: the line is removed and the loop is left by `break`. -/
theorem get_bitmap_filename_loop_found (B : List Byte) (MAXLINE fuel : Nat)
    (c : ClientState) (s : Socket) (wh : Nat)
    (hw : find_network_newline c.buf c.num_bytes = (wh : Int)) (h : 0 < wh)
    (hlen : B.length + 2 ≤ wh) (hpre : c.buf.take B.length = B) :
    get_bitmap_filename_loop B MAXLINE (fuel + 1) c s =
      some (true, remove_buffered_line MAXLINE c, s) := by
  have h1 : (0 : Int) < (wh : Int) := by exact_mod_cast h
  have h2 : ¬ ((wh : Int) < (B.length : Int) + 2 ∨ c.buf.take B.length ≠ B) := by
    rintro (l | r)
    · omega
    · exact r hpre
  simp only [get_bitmap_filename_loop, hw, if_pos h1, if_neg h2]

/-- The code after the loop, on a buffer that holds exactly the line
`P="F"` with its CR LF and then the bytes `R`: the filename is `F` and `R`
is left in the buffer. -/
theorem get_bitmap_filename_tail_line (MAXLINE : Nat) (c : ClientState)
    (P F R junk : List Byte) (hwf : WellFormed MAXLINE c)
    (hbuf : c.buf = (P ++ EQUALS :: QUOTE :: (F ++ [QUOTE, CR, LF])) ++ (R ++ junk))
    (hn : c.num_bytes
      = ((P ++ EQUALS :: QUOTE :: (F ++ [QUOTE, CR, LF])).length : Int) + R.length)
    (hl : IsLine (P ++ EQUALS :: QUOTE :: (F ++ [QUOTE, CR, LF])))
    (hP : (0 : Byte) ∉ P) (hF0 : (0 : Byte) ∉ F) (hFe : EQUALS ∉ F) :
    get_bitmap_filename_tail MAXLINE c =
      (.returned (some F),
        { c with buf := R ++ List.replicate (MAXLINE - R.length) 0
                 num_bytes := (R.length : Int) }) := by
  have hlen : (P ++ EQUALS :: QUOTE :: (F ++ [QUOTE, CR, LF])).length
      = P.length + F.length + 5 := by
    simp only [List.length_append, List.length_cons, List.length_nil]; omega
  have hfind : find_network_newline c.buf c.num_bytes
      = ((P.length + F.length + 5 : Nat) : Int) := by
    rw [hbuf, ← hlen]
    exact find_network_newline_line _ (R ++ junk) c.num_bytes hl (by omega)
  -- the buffer, cut before the LF of the line
  have hsplit : c.buf = (P ++ EQUALS :: QUOTE :: (F ++ [QUOTE, CR])) ++
      LF :: (R ++ junk) := by
    rw [hbuf]; simp
  have hlenA : (P ++ EQUALS :: QUOTE :: (F ++ [QUOTE, CR])).length
      = P.length + F.length + 4 := by
    simp only [List.length_append, List.length_cons, List.length_nil]; omega
  have hidx : (((P.length + F.length + 5 : Nat) : Int) - 1).toNat
      = (P ++ EQUALS :: QUOTE :: (F ++ [QUOTE, CR])).length := by
    rw [hlenA]; omega
  have hset0 : c.buf.set (((P.length + F.length + 5 : Nat) : Int) - 1).toNat 0
      = (P ++ EQUALS :: QUOTE :: (F ++ [QUOTE, CR])) ++ 0 :: (R ++ junk) := by
    rw [hidx, hsplit, set_append_length]
  have hsetLF : ((P ++ EQUALS :: QUOTE :: (F ++ [QUOTE, CR])) ++ 0 :: (R ++ junk)).set
      (((P.length + F.length + 5 : Nat) : Int) - 1).toNat LF = c.buf := by
    rw [hidx, set_append_length, hsplit]
  have hFq : (0 : Byte) ∉ F ++ [QUOTE, CR] := by
    intro h
    rcases List.mem_append.1 h with h | h
    · exact hF0 h
    · simp only [List.mem_cons, List.mem_singleton, List.not_mem_nil, or_false] at h
      rcases h with h | h <;> exact absurd h (by decide)
  have hA0 : (0 : Byte) ∉ P ++ EQUALS :: QUOTE :: (F ++ [QUOTE, CR]) := by
    intro h
    rcases List.mem_append.1 h with h | h
    · exact hP h
    · rcases List.mem_cons.1 h with h | h
      · exact absurd h (by decide)
      · rcases List.mem_cons.1 h with h | h
        · exact absurd h (by decide)
        · exact hFq h
  have hc0 : cstr ((P ++ EQUALS :: QUOTE :: (F ++ [QUOTE, CR])) ++ 0 :: (R ++ junk)) 0
      = P ++ EQUALS :: QUOTE :: (F ++ [QUOTE, CR]) := by
    have := cstr_append_nul [] (P ++ EQUALS :: QUOTE :: (F ++ [QUOTE, CR])) (R ++ junk) hA0
    simpa using this
  have hrchr : strrchr (P ++ EQUALS :: QUOTE :: (F ++ [QUOTE, CR])) EQUALS
      = some P.length := by
    apply strrchr_append_cons
    intro h
    rcases List.mem_cons.1 h with h | h
    · exact absurd h (by decide)
    · rcases List.mem_append.1 h with h | h
      · exact hFe h
      · simp only [List.mem_cons, List.mem_singleton, List.not_mem_nil, or_false] at h
        rcases h with h | h <;> exact absurd h (by decide)
  have hraw : cstr ((P ++ EQUALS :: QUOTE :: (F ++ [QUOTE, CR])) ++ 0 :: (R ++ junk))
      (P.length + 2) = F ++ [QUOTE, CR] := by
    have e : (P ++ EQUALS :: QUOTE :: (F ++ [QUOTE, CR])) ++ 0 :: (R ++ junk)
        = (P ++ [EQUALS, QUOTE]) ++ ((F ++ [QUOTE, CR]) ++ 0 :: (R ++ junk)) := by simp
    have := cstr_append_nul (P ++ [EQUALS, QUOTE]) (F ++ [QUOTE, CR]) (R ++ junk) hFq
    rw [e]
    simpa using this
  have hlf : ¬ ((((P.length + F.length + 5 : Nat) : Int) - 3
      - ((P.length + 2 : Nat) : Int)) < 0) := by omega
  have hlf2 : ((((P.length + F.length + 5 : Nat) : Int) - 3
      - ((P.length + 2 : Nat) : Int))).toNat = F.length := by omega
  have hneg : ¬ (((P.length + F.length + 5 : Nat) : Int) - 1 < 0) := by omega
  have hrem : remove_buffered_line MAXLINE { c with buf := c.buf } =
      { c with buf := R ++ List.replicate (MAXLINE - R.length) 0
               num_bytes := (R.length : Int) } :=
    remove_buffered_line_exact MAXLINE c _ R junk hwf hbuf hl hn
  unfold get_bitmap_filename_tail
  dsimp only
  rw [hfind, if_neg hneg, hset0, hc0, hrchr]
  dsimp only
  rw [if_neg hlf, hlf2, hraw, hsetLF, hrem, List.take_left]

end Request

namespace Request

/-- `get_bitmap_filename` on a buffer that starts with the boundary line:
the line is removed and the next line is parsed at once, with no read. -/
theorem get_bitmap_filename_boundary_line (B X Y junk : List Byte)
    (MAXLINE extra : Nat) (c : ClientState) (s : Socket)
    (hwf : WellFormed MAXLINE c)
    (hbuf : c.buf = (B ++ (X ++ [CR, LF])) ++ (Y ++ junk))
    (hn : c.num_bytes = ((B ++ (X ++ [CR, LF])).length : Int) + Y.length)
    (h1 : IsLine (B ++ (X ++ [CR, LF]))) :
    WellFormed MAXLINE
      { c with buf := Y ++ List.replicate (MAXLINE - Y.length) 0
               num_bytes := (Y.length : Int) } ∧
    get_bitmap_filename B MAXLINE (extra + 1) c s =
      some ((get_bitmap_filename_tail MAXLINE
          { c with buf := Y ++ List.replicate (MAXLINE - Y.length) 0
                   num_bytes := (Y.length : Int) }).1,
        (get_bitmap_filename_tail MAXLINE
          { c with buf := Y ++ List.replicate (MAXLINE - Y.length) 0
                   num_bytes := (Y.length : Int) }).2, s) := by
  have hfind : find_network_newline c.buf c.num_bytes
      = ((B ++ (X ++ [CR, LF])).length : Int) := by
    rw [hbuf]
    exact find_network_newline_line _ (Y ++ junk) c.num_bytes h1 (by omega)
  have hpre : c.buf.take B.length = B := by
    rw [hbuf, List.append_assoc, List.take_left]
  have hrem := remove_buffered_line_exact MAXLINE c _ Y junk hwf hbuf h1 hn
  have hwf1 := (remove_buffered_line_wellFormed MAXLINE c hwf).1
  rw [hrem] at hwf1
  refine ⟨hwf1, ?_⟩
  unfold get_bitmap_filename
  rw [get_bitmap_filename_loop_found B MAXLINE extra c s _ hfind (by simp)
    (by simp) hpre, hrem]

/-- C13, as stated, fails: with the boundary `--X`, the boundary line
`--X` and the next line `P="F"` where `P = "a=b\0"` holds a NUL, the
filename returned is empty, not `"F"`. -/
theorem get_bitmap_filename_nul_counterexample :
    (get_bitmap_filename [45, 45, 88] 24 1
      ⟨[45, 45, 88, 13, 10, 97, 61, 98, 0, 61, 34, 70, 34, 13, 10,
          0, 0, 0, 0, 0, 0, 0, 0, 0], 15, none⟩ ⟨[], []⟩).map (fun r => r.1)
      = some (.returned (some [])) := by
  decide

/-- C13, amended. When the first complete line of the buffer starts with
the boundary `B` and the next complete line is `P="F"` with its CR LF, `P`
without NUL and `F` without `'='` or NUL, `get_bitmap_filename` returns
exactly `F`, makes no read, and leaves in the buffer exactly the bytes `R`
that followed that line. -/
theorem get_bitmap_filename_extracts (B X P F R junk : List Byte)
    (MAXLINE extra : Nat) (c : ClientState) (s : Socket)
    (hwf : WellFormed MAXLINE c)
    (hbuf : c.buf = (B ++ (X ++ [CR, LF])) ++
      (((P ++ EQUALS :: QUOTE :: (F ++ [QUOTE, CR, LF])) ++ R) ++ junk))
    (hn : c.num_bytes = ((B ++ (X ++ [CR, LF])).length : Int) +
      ((P ++ EQUALS :: QUOTE :: (F ++ [QUOTE, CR, LF])) ++ R).length)
    (h1 : IsLine (B ++ (X ++ [CR, LF])))
    (h2 : IsLine (P ++ EQUALS :: QUOTE :: (F ++ [QUOTE, CR, LF])))
    (hP : (0 : Byte) ∉ P) (hF0 : (0 : Byte) ∉ F) (hFe : EQUALS ∉ F) :
    get_bitmap_filename B MAXLINE (extra + 1) c s =
      some (.returned (some F),
        { c with buf := R ++ List.replicate (MAXLINE - R.length) 0
                 num_bytes := (R.length : Int) }, s) := by
  obtain ⟨hwf1, hrun⟩ := get_bitmap_filename_boundary_line B X
    ((P ++ EQUALS :: QUOTE :: (F ++ [QUOTE, CR, LF])) ++ R) junk MAXLINE extra c s
    hwf hbuf hn h1
  have htail := get_bitmap_filename_tail_line MAXLINE
    ⟨((P ++ EQUALS :: QUOTE :: (F ++ [QUOTE, CR, LF])) ++ R) ++
        List.replicate
          (MAXLINE - ((P ++ EQUALS :: QUOTE :: (F ++ [QUOTE, CR, LF])) ++ R).length) 0,
      (((P ++ EQUALS :: QUOTE :: (F ++ [QUOTE, CR, LF])) ++ R).length : Int),
      c.reqData⟩
    P F R
    (List.replicate
      (MAXLINE - ((P ++ EQUALS :: QUOTE :: (F ++ [QUOTE, CR, LF])) ++ R).length) 0)
    hwf1 (List.append_assoc _ _ _)
    (by show ((_ ++ R).length : Int) = _; rw [List.length_append]; push_cast; rfl)
    h2 hP hF0 hFe
  rw [hrun, htail]

/-- C13, amended, with the boundary `--X`, the lines `--X` and `n="F"`, and
the byte `z` after them, in an array of 24 bytes. -/
theorem get_bitmap_filename_extracts_witness :
    get_bitmap_filename [45, 45, 88] 24 (0 + 1)
      ⟨[45, 45, 88, 13, 10, 110, 61, 34, 70, 34, 13, 10, 122,
          0, 0, 0, 0, 0, 0, 0, 0, 0, 0, 0], 13, none⟩ ⟨[], []⟩ =
      some (.returned (some [70]),
        ⟨[122] ++ List.replicate (24 - 1) 0, 1, none⟩, ⟨[], []⟩) :=
  get_bitmap_filename_extracts [45, 45, 88] [] [110] [70] [122]
    [0, 0, 0, 0, 0, 0, 0, 0, 0, 0, 0] 24 0
    ⟨[45, 45, 88, 13, 10, 110, 61, 34, 70, 34, 13, 10, 122,
        0, 0, 0, 0, 0, 0, 0, 0, 0, 0, 0], 13, none⟩ ⟨[], []⟩
    ⟨by decide, by decide, by decide⟩ rfl rfl
    (isLine_of_no_lf [45, 45, 88] (by decide))
    (isLine_of_no_lf [110, 61, 34, 70, 34] (by decide))
    (by decide) (by decide) (by decide)

end Request

namespace Request

/-! ## The line after the boundary line is used unchecked -/

/-- The code after the loop when the buffer holds no complete line: the
offset `where - 1` is `-2`. -/
theorem get_bitmap_filename_tail_no_line (MAXLINE : Nat) (c : ClientState)
    (hno : ∀ k, ¬ CrlfAt c.buf c.num_bytes k) :
    get_bitmap_filename_tail MAXLINE c = (.undefined, c) := by
  have hfind := (find_network_newline_eq_neg_one_iff c.buf c.num_bytes).2 hno
  unfold get_bitmap_filename_tail
  dsimp only
  rw [hfind, if_pos (by decide)]

/-- The code after the loop when the first line holds no `'='`: `strrchr`
returns `NULL`. -/
theorem get_bitmap_filename_tail_no_equals (MAXLINE : Nat) (c : ClientState)
    (Y rest : List Byte) (hbuf : c.buf = (Y ++ [CR, LF]) ++ rest)
    (hn : ((Y ++ [CR, LF]).length : Int) ≤ c.num_bytes)
    (hl : IsLine (Y ++ [CR, LF])) (hY0 : (0 : Byte) ∉ Y) (hYe : EQUALS ∉ Y) :
    (get_bitmap_filename_tail MAXLINE c).1 = .undefined := by
  have hfind : find_network_newline c.buf c.num_bytes
      = ((Y.length + 2 : Nat) : Int) := by
    rw [hbuf]
    have := find_network_newline_line _ rest c.num_bytes hl hn
    rw [this]
    simp
  have hsplit : c.buf = (Y ++ [CR]) ++ LF :: rest := by
    rw [hbuf]; simp
  have hidx : (((Y.length + 2 : Nat) : Int) - 1).toNat = (Y ++ [CR]).length := by
    simp only [List.length_append, List.length_cons, List.length_nil]; omega
  have hset0 : c.buf.set (((Y.length + 2 : Nat) : Int) - 1).toNat 0
      = (Y ++ [CR]) ++ 0 :: rest := by
    rw [hidx, hsplit, set_append_length]
  have hA0 : (0 : Byte) ∉ Y ++ [CR] := by
    intro h
    rcases List.mem_append.1 h with h | h
    · exact hY0 h
    · exact absurd (List.mem_singleton.1 h) (by decide)
  have hc0 : cstr ((Y ++ [CR]) ++ 0 :: rest) 0 = Y ++ [CR] := by
    have := cstr_append_nul [] (Y ++ [CR]) rest hA0
    simpa using this
  have hrchr : strrchr (Y ++ [CR]) EQUALS = none := by
    apply strrchr_of_not_mem
    intro h
    rcases List.mem_append.1 h with h | h
    · exact hYe h
    · exact absurd (List.mem_singleton.1 h) (by decide)
  have hneg : ¬ (((Y.length + 2 : Nat) : Int) - 1 < 0) := by omega
  unfold get_bitmap_filename_tail
  dsimp only
  rw [hfind, if_neg hneg, hset0, hc0, hrchr]

/-- C18 fails on the code. The buffer starts with the boundary line and
holds the bytes `Z` after it.  When `Z` holds no complete line yet,
`get_bitmap_filename` does not read more: it uses `where = -1` as an offset
and its behaviour is undefined.  When `Z` starts with a complete line
without `'='`, it computes the filename pointer from `NULL` and its
behaviour is undefined.  In neither case does it return `NULL`. -/
theorem get_bitmap_filename_unchecked (B X Z junk : List Byte)
    (MAXLINE extra : Nat) (c : ClientState) (s : Socket)
    (hwf : WellFormed MAXLINE c)
    (hbuf : c.buf = (B ++ (X ++ [CR, LF])) ++ (Z ++ junk))
    (hn : c.num_bytes = ((B ++ (X ++ [CR, LF])).length : Int) + Z.length)
    (h1 : IsLine (B ++ (X ++ [CR, LF]))) :
    ((∀ k, ¬ CrlfAt Z (Z.length : Int) k) →
      get_bitmap_filename B MAXLINE (extra + 1) c s =
        some (.undefined,
          ⟨Z ++ List.replicate (MAXLINE - Z.length) 0, (Z.length : Int), c.reqData⟩,
          s)) ∧
    (∀ Y R : List Byte, Z = (Y ++ [CR, LF]) ++ R → IsLine (Y ++ [CR, LF]) →
      (0 : Byte) ∉ Y → EQUALS ∉ Y →
      (get_bitmap_filename B MAXLINE (extra + 1) c s).map (fun r => r.1)
        = some .undefined) := by
  obtain ⟨hwf1, hrun⟩ := get_bitmap_filename_boundary_line B X Z junk MAXLINE extra c s
    hwf hbuf hn h1
  constructor
  · intro hno
    have hno' : ∀ k, ¬ CrlfAt (Z ++ List.replicate (MAXLINE - Z.length) 0)
        (Z.length : Int) k := by
      intro k hk
      obtain ⟨k1, k2, k3⟩ := hk
      have k1' : (k : Int) + 1 < (Z.length : Int) := k1
      apply hno k
      rw [byteAt_append_left _ _ _ (by omega)] at k2 k3
      exact ⟨k1, k2, k3⟩
    rw [hrun, get_bitmap_filename_tail_no_line MAXLINE
      ⟨Z ++ List.replicate (MAXLINE - Z.length) 0, (Z.length : Int), c.reqData⟩ hno']
  · intro Y R hZ hl hY0 hYe
    have ht := get_bitmap_filename_tail_no_equals MAXLINE
      ⟨Z ++ List.replicate (MAXLINE - Z.length) 0, (Z.length : Int), c.reqData⟩
      Y (R ++ List.replicate (MAXLINE - Z.length) 0)
      (by show Z ++ _ = _; rw [hZ, List.append_assoc])
      (by show _ ≤ (Z.length : Int); rw [hZ]; simp only [List.length_append]; push_cast; omega)
      hl hY0 hYe
    rw [hrun]
    simp only [Option.map_some']
    rw [ht]

/-- C18's failure with the boundary `--X` in an array of 16 bytes that holds
the boundary line alone: the result is undefined, and no read was made. -/
theorem get_bitmap_filename_unchecked_witness :
    get_bitmap_filename [45, 45, 88] 16 (0 + 1)
      ⟨[45, 45, 88, 13, 10, 0, 0, 0, 0, 0, 0, 0, 0, 0, 0, 0], 5, none⟩
      ⟨[.data [110, 61, 34, 70, 34, 13, 10]], []⟩ =
      some (.undefined, ⟨[] ++ List.replicate (16 - 0) 0, 0, none⟩,
        ⟨[.data [110, 61, 34, 70, 34, 13, 10]], []⟩) :=
  (get_bitmap_filename_unchecked [45, 45, 88] [] [] [0, 0, 0, 0, 0, 0, 0, 0, 0, 0, 0]
    16 0 ⟨[45, 45, 88, 13, 10, 0, 0, 0, 0, 0, 0, 0, 0, 0, 0, 0], 5, none⟩
    ⟨[.data [110, 61, 34, 70, 34, 13, 10]], []⟩
    ⟨by decide, by decide, by decide⟩ rfl rfl
    (isLine_of_no_lf [45, 45, 88] (by decide))).1
    (by
      intro k hk
      have h1 : (k : Int) + 1 < 0 := hk.1
      omega)

end Request

namespace Request

/-! ## `save_file_upload` -/

/-- `save_file_upload` once the blank line is found, with a sink that takes
every write: the resident body bytes are written, then the loop runs. -/
theorem save_file_upload_eq (MAXLINE fuel : Nat) (c : ClientState) (B : List Byte)
    (s : Socket) (w : List Byte) (i : Nat)
    (hhdr : strstr c.buf [CR, LF, CR, LF] = .found i) :
    save_file_upload MAXLINE fuel c B s ⟨w, []⟩ =
      match save_file_upload_loop MAXLINE (end_boundary MAXLINE B) fuel c.buf s
          ⟨w ++ residentBody c i, []⟩ [] with
      | none => none
      | some r => some (r.1, { c with buf := r.2.1 }, r.2.2.1, r.2.2.2) := by
  unfold save_file_upload residentBody
  rw [hhdr]
  dsimp only
  by_cases h : 0 < c.num_bytes - ((i + 4 : Nat) : Int)
  · rw [if_pos h, if_pos h]
    simp only [sys_write, Bool.true_eq_false, if_false]
  · rw [if_neg h, if_neg h]
    simp only [Bool.true_eq_false, if_false, List.append_nil]

/-- One iteration of the loop on a chunk in which the marker is not found:
the chunk goes to the accumulation buffer and nothing is written. -/
theorem save_file_upload_loop_miss (MAXLINE fuel : Nat) (marker buf d : List Byte)
    (rest : List ReadEvent) (log : List (Nat × Nat)) (sink : Sink) (acc : List Byte)
    (hd : d ≠ []) (hfit : d.length ≤ MAXLINE)
    (hno : strstr (store buf 0 d) marker = .absent) :
    save_file_upload_loop MAXLINE marker (fuel + 1) buf ⟨.data d :: rest, log⟩ sink acc =
      save_file_upload_loop MAXLINE marker fuel (store buf 0 d)
        ⟨rest, log ++ [(0, MAXLINE)]⟩ sink (acc ++ d) := by
  have hlen : ¬ d.length = 0 := fun h => hd (List.length_eq_zero.1 h)
  rw [save_file_upload_loop]
  simp only [sys_read_data d rest log 0 MAXLINE hfit, if_neg hlen, hno]

/-- One iteration of the loop when the peer has closed: the read returns 0
and the function gives up with `-1`. -/
theorem save_file_upload_loop_closed (MAXLINE fuel : Nat) (marker buf : List Byte)
    (log : List (Nat × Nat)) (sink : Sink) (acc : List Byte) :
    save_file_upload_loop MAXLINE marker (fuel + 1) buf ⟨[], log⟩ sink acc =
      some (.returned (-1), buf, ⟨[], log ++ [(0, MAXLINE)]⟩, sink) := by
  rw [save_file_upload_loop]
  simp [sys_read]

/-- C14, as stated, fails: with the boundary `--X` and the marker
`"\r\n--X--\r\n"` split as `"ab\r\n--X"` then `"--\r\n"`, `save_file_upload`
returns `-1` and writes nothing, where the claim has it return 0 after
writing `"ab"`. -/
theorem save_file_upload_split_counterexample :
    save_file_upload 32 3
      ⟨[13, 10, 13, 10] ++ List.replicate 28 0, 4, none⟩ [45, 45, 88]
      ⟨[.data [97, 98, 13, 10, 45, 45, 88], .data [45, 45, 13, 10]], []⟩ ⟨[], []⟩
    = some (.returned (-1),
        ⟨[45, 45, 13, 10, 45, 45, 88] ++ List.replicate 25 0, 4, none⟩,
        ⟨[], [(0, 32), (0, 32), (0, 32)]⟩, ⟨[], []⟩) := by
  decide

/-- The search answers `NULL` only after meeting a NUL inside the array. -/
theorem strstr_absent_mem :
    ∀ (mem needle : List Byte), strstr mem needle = .absent → (0 : Byte) ∈ mem := by
  intro mem
  induction mem with
  | nil =>
    intro needle h
    unfold strstr at h
    split at h <;> cases h
  | cons b rest ih =>
    intro needle h
    rw [strstr] at h
    by_cases hp : needle.isPrefixOf (b :: rest) = true
    · rw [if_pos hp] at h; cases h
    · rw [if_neg hp] at h
      by_cases hb : b = 0
      · rw [hb]; exact List.mem_cons_self _ _
      · rw [if_neg hb] at h
        have hr : strstr rest needle = .absent := by
          rcases hs : strstr rest needle with i | _ | _
          · rw [hs] at h; cases h
          · rfl
          · rw [hs] at h; cases h
        exact List.mem_cons_of_mem _ (ih needle hr)

/-- C14, amended. The marker is looked for only in the buffer as it stands
after one read.  When the marker is split across two consecutive reads
after which the stream ends, and after each of the two reads the search in
the buffer meets a NUL inside the array before it meets the whole marker
(so the text in the buffer does not hold the marker, and the search does not
run past the array), `save_file_upload` returns `-1` and the sink receives
only the body bytes that were resident in the buffer: no byte of the two
chunks is written.  Each of the two buffers searched is the whole array of
`MAXLINE` bytes and holds a NUL. -/
theorem save_file_upload_split_marker (MAXLINE : Nat) (c : ClientState)
    (B X m₁ m₂ : List Byte) (log : List (Nat × Nat)) (w : List Byte) (i : Nat)
    (hlen : c.buf.length = MAXLINE)
    (hhdr : strstr c.buf [CR, LF, CR, LF] = .found i)
    (hsplit : m₁ ++ m₂ = end_boundary MAXLINE B) (hm₁ : m₁ ≠ []) (hm₂ : m₂ ≠ [])
    (hfit₁ : (X ++ m₁).length ≤ MAXLINE) (hfit₂ : m₂.length ≤ MAXLINE)
    (hno₁ : strstr (store c.buf 0 (X ++ m₁)) (m₁ ++ m₂) = .absent)
    (hno₂ : strstr (store (store c.buf 0 (X ++ m₁)) 0 m₂) (m₁ ++ m₂) = .absent) :
    save_file_upload MAXLINE 3 c B ⟨[.data (X ++ m₁), .data m₂], log⟩ ⟨w, []⟩ =
      some (.returned (-1), { c with buf := store (store c.buf 0 (X ++ m₁)) 0 m₂ },
        ⟨[], log ++ [(0, MAXLINE)] ++ [(0, MAXLINE)] ++ [(0, MAXLINE)]⟩,
        ⟨w ++ residentBody c i, []⟩) ∧
    (store c.buf 0 (X ++ m₁)).length = MAXLINE ∧
    (store (store c.buf 0 (X ++ m₁)) 0 m₂).length = MAXLINE ∧
    (0 : Byte) ∈ store c.buf 0 (X ++ m₁) ∧
    (0 : Byte) ∈ store (store c.buf 0 (X ++ m₁)) 0 m₂ := by
  have hl₁ : (store c.buf 0 (X ++ m₁)).length = MAXLINE := by
    rw [(store_spec c.buf 0 (X ++ m₁) (by omega)).2.2, hlen]
  have hl₂ : (store (store c.buf 0 (X ++ m₁)) 0 m₂).length = MAXLINE := by
    rw [(store_spec (store c.buf 0 (X ++ m₁)) 0 m₂ (by omega)).2.2, hl₁]
  refine ⟨?_, hl₁, hl₂, strstr_absent_mem _ _ hno₁, strstr_absent_mem _ _ hno₂⟩
  rw [hsplit] at hno₁ hno₂
  rw [save_file_upload_eq MAXLINE 3 c B _ w i hhdr,
    save_file_upload_loop_miss MAXLINE 2 _ c.buf (X ++ m₁) _ log _ []
      (by simp [hm₁]) hfit₁ hno₁,
    save_file_upload_loop_miss MAXLINE 1 _ _ m₂ _ _ _ _ hm₂ hfit₂ hno₂,
    save_file_upload_loop_closed]

/-- C14, amended, with the boundary `--X`, the body `"ab"` and the marker
split after `--X`, in an array of 32 bytes. -/
theorem save_file_upload_split_marker_witness :
    save_file_upload 32 3
      ⟨[13, 10, 13, 10] ++ List.replicate 28 0, 4, none⟩ [45, 45, 88]
      ⟨[.data ([97, 98] ++ [13, 10, 45, 45, 88]), .data [45, 45, 13, 10]], []⟩
      ⟨[], []⟩
    = some (.returned (-1),
        { (⟨[13, 10, 13, 10] ++ List.replicate 28 0, 4, none⟩ : ClientState) with
          buf := store (store ([13, 10, 13, 10] ++ List.replicate 28 0) 0
            ([97, 98] ++ [13, 10, 45, 45, 88])) 0 [45, 45, 13, 10] },
        ⟨[], [] ++ [(0, 32)] ++ [(0, 32)] ++ [(0, 32)]⟩,
        ⟨[] ++ residentBody ⟨[13, 10, 13, 10] ++ List.replicate 28 0, 4, none⟩ 0, []⟩) :=
  (save_file_upload_split_marker 32 ⟨[13, 10, 13, 10] ++ List.replicate 28 0, 4, none⟩
    [45, 45, 88] [97, 98] [13, 10, 45, 45, 88] [45, 45, 13, 10] [] [] 0
    (by decide) (by decide) (by decide) (by decide) (by decide) (by decide)
    (by decide) (by decide) (by decide)).1

end Request

namespace Request

/-- The marker starts with CR when the array has room for it. -/
theorem end_boundary_cons (MAXLINE : Nat) (B : List Byte) (hM : 2 ≤ MAXLINE) :
    ∃ t, end_boundary MAXLINE B = CR :: t := by
  obtain ⟨k, hk⟩ : ∃ k, MAXLINE - 1 = k + 1 := ⟨MAXLINE - 2, by omega⟩
  refine ⟨(LF :: (B ++ [DASH, DASH, CR, LF])).take k, ?_⟩
  unfold end_boundary
  rw [hk]
  rfl

/-- `strstr` finds nothing in a buffer whose first byte is NUL, for a
needle that starts with another byte. -/
theorem strstr_nul (rest t : List Byte) (x : Byte) (hx : x ≠ 0) :
    strstr (0 :: rest) (x :: t) = .absent := by
  have hx' : (x == 0) = false := by simp [hx]
  simp [strstr, List.isPrefixOf, hx']

/-- C15 fails on the code. The chunk read starts with a NUL byte of the
body; whatever follows it in the chunk, the marker included, `strstr` stops
at the NUL and finds nothing.  With the stream ending after that chunk,
`save_file_upload` returns `-1` and the sink receives only the resident
body bytes: the NUL byte that precedes the marker is not written. -/
theorem save_file_upload_nul_chunk (MAXLINE : Nat) (c : ClientState)
    (B Y : List Byte) (log : List (Nat × Nat)) (w : List Byte) (i : Nat)
    (hM : 2 ≤ MAXLINE) (hhdr : strstr c.buf [CR, LF, CR, LF] = .found i)
    (hfit : (0 :: Y).length ≤ MAXLINE) :
    save_file_upload MAXLINE 2 c B ⟨[.data (0 :: Y)], log⟩ ⟨w, []⟩ =
      some (.returned (-1), { c with buf := store c.buf 0 (0 :: Y) },
        ⟨[], log ++ [(0, MAXLINE)] ++ [(0, MAXLINE)]⟩,
        ⟨w ++ residentBody c i, []⟩) := by
  obtain ⟨t, ht⟩ := end_boundary_cons MAXLINE B hM
  have hno : strstr (store c.buf 0 (0 :: Y)) (end_boundary MAXLINE B) = .absent := by
    rw [ht]
    have : store c.buf 0 (0 :: Y) = 0 :: (Y ++ c.buf.drop (0 + (0 :: Y).length)) := by
      simp [store]
    rw [this]
    exact strstr_nul _ t CR (by decide)
  rw [save_file_upload_eq MAXLINE 2 c B _ w i hhdr,
    save_file_upload_loop_miss MAXLINE 1 _ c.buf (0 :: Y) _ log _ []
      (by simp) hfit hno,
    save_file_upload_loop_closed]

/-- C15's failure with the boundary `--X` in an array of 32 bytes: the only
chunk is the body byte NUL followed by the marker `"\r\n--X--\r\n"`.  The
result is `-1` with nothing written, where the claim has 0 with the NUL byte
written. -/
theorem save_file_upload_nul_chunk_witness :
    save_file_upload 32 2
      ⟨[13, 10, 13, 10] ++ List.replicate 28 0, 4, none⟩ [45, 45, 88]
      ⟨[.data (0 :: [13, 10, 45, 45, 88, 45, 45, 13, 10])], []⟩ ⟨[], []⟩
    = some (.returned (-1),
        { (⟨[13, 10, 13, 10] ++ List.replicate 28 0, 4, none⟩ : ClientState) with
          buf := store ([13, 10, 13, 10] ++ List.replicate 28 0) 0
            (0 :: [13, 10, 45, 45, 88, 45, 45, 13, 10]) },
        ⟨[], [] ++ [(0, 32)] ++ [(0, 32)]⟩,
        ⟨[] ++ residentBody ⟨[13, 10, 13, 10] ++ List.replicate 28 0, 4, none⟩ 0, []⟩) :=
  save_file_upload_nul_chunk 32 ⟨[13, 10, 13, 10] ++ List.replicate 28 0, 4, none⟩
    [45, 45, 88] [13, 10, 45, 45, 88, 45, 45, 13, 10] [] [] 0
    (by decide) (by decide) (by decide)

end Request
